import Mathlib

/-!
Verification development for a minimal workflow-automation runtime
(`workflow_builder`): a stored definition of chained steps, a run state
machine driven by an engine, and two reference connectors (delay, webhook).

The Python source is shallowly embedded: pydantic models become structures,
Python dicts become association lists (`List (String × Value)`) preserving
insertion order, raised exceptions become `Except PyErr` / `Except String`
results, and the engine's `while` loop becomes a fuel-indexed recursive
function.  External effects (the HTTP call issued by the webhook connector,
wall-clock sleeping, the filesystem behind storage) are abstracted: the HTTP
world is an oracle argument, clock reads are a threaded `Nat` counter, and a
storage directory is an association list keyed by entity id.
-/

set_option autoImplicit false

namespace WorkflowBuilder

/-- Values carried in workflow contexts and step configurations, mirroring the
JSON-like `Dict[str, Any]` payloads of the Python source. -/
inductive Value where
  | null : Value
  | bool (b : Bool) : Value
  | int (n : Int) : Value
  | str (s : String) : Value
  | list (vs : List Value) : Value
  | dict (kvs : List (String × Value)) : Value
deriving Repr

mutual

/-- Decidable equality on values, written by hand because the nested inductive
defeats the deriving handler on this toolchain. -/
def Value.decEq : (a b : Value) → Decidable (a = b)
  | .null, .null => isTrue rfl
  | .bool a, .bool b =>
      if h : a = b then isTrue (by rw [h]) else isFalse (fun he => by cases he; exact h rfl)
  | .int a, .int b =>
      if h : a = b then isTrue (by rw [h]) else isFalse (fun he => by cases he; exact h rfl)
  | .str a, .str b =>
      if h : a = b then isTrue (by rw [h]) else isFalse (fun he => by cases he; exact h rfl)
  | .list as, .list bs =>
      match Value.decEqList as bs with
      | isTrue h => isTrue (by rw [h])
      | isFalse h => isFalse (fun he => by cases he; exact h rfl)
  | .dict as, .dict bs =>
      match Value.decEqPairs as bs with
      | isTrue h => isTrue (by rw [h])
      | isFalse h => isFalse (fun he => by cases he; exact h rfl)
  | .null, .bool _ => isFalse (fun h => Value.noConfusion h)
  | .null, .int _ => isFalse (fun h => Value.noConfusion h)
  | .null, .str _ => isFalse (fun h => Value.noConfusion h)
  | .null, .list _ => isFalse (fun h => Value.noConfusion h)
  | .null, .dict _ => isFalse (fun h => Value.noConfusion h)
  | .bool _, .null => isFalse (fun h => Value.noConfusion h)
  | .bool _, .int _ => isFalse (fun h => Value.noConfusion h)
  | .bool _, .str _ => isFalse (fun h => Value.noConfusion h)
  | .bool _, .list _ => isFalse (fun h => Value.noConfusion h)
  | .bool _, .dict _ => isFalse (fun h => Value.noConfusion h)
  | .int _, .null => isFalse (fun h => Value.noConfusion h)
  | .int _, .bool _ => isFalse (fun h => Value.noConfusion h)
  | .int _, .str _ => isFalse (fun h => Value.noConfusion h)
  | .int _, .list _ => isFalse (fun h => Value.noConfusion h)
  | .int _, .dict _ => isFalse (fun h => Value.noConfusion h)
  | .str _, .null => isFalse (fun h => Value.noConfusion h)
  | .str _, .bool _ => isFalse (fun h => Value.noConfusion h)
  | .str _, .int _ => isFalse (fun h => Value.noConfusion h)
  | .str _, .list _ => isFalse (fun h => Value.noConfusion h)
  | .str _, .dict _ => isFalse (fun h => Value.noConfusion h)
  | .list _, .null => isFalse (fun h => Value.noConfusion h)
  | .list _, .bool _ => isFalse (fun h => Value.noConfusion h)
  | .list _, .int _ => isFalse (fun h => Value.noConfusion h)
  | .list _, .str _ => isFalse (fun h => Value.noConfusion h)
  | .list _, .dict _ => isFalse (fun h => Value.noConfusion h)
  | .dict _, .null => isFalse (fun h => Value.noConfusion h)
  | .dict _, .bool _ => isFalse (fun h => Value.noConfusion h)
  | .dict _, .int _ => isFalse (fun h => Value.noConfusion h)
  | .dict _, .str _ => isFalse (fun h => Value.noConfusion h)
  | .dict _, .list _ => isFalse (fun h => Value.noConfusion h)

/-- Decidable equality on lists of values. -/
def Value.decEqList : (as bs : List Value) → Decidable (as = bs)
  | [], [] => isTrue rfl
  | [], _ :: _ => isFalse (fun h => List.noConfusion h)
  | _ :: _, [] => isFalse (fun h => List.noConfusion h)
  | a :: as, b :: bs =>
      match Value.decEq a b, Value.decEqList as bs with
      | isTrue h1, isTrue h2 => isTrue (by rw [h1, h2])
      | isFalse h1, _ => isFalse (fun h => by injection h with hh ht; exact h1 hh)
      | _, isFalse h2 => isFalse (fun h => by injection h with hh ht; exact h2 ht)

/-- Decidable equality on association lists of values. -/
def Value.decEqPairs : (as bs : List (String × Value)) → Decidable (as = bs)
  | [], [] => isTrue rfl
  | [], _ :: _ => isFalse (fun h => List.noConfusion h)
  | _ :: _, [] => isFalse (fun h => List.noConfusion h)
  | (k1, v1) :: as, (k2, v2) :: bs =>
      match (inferInstance : Decidable (k1 = k2)), Value.decEq v1 v2, Value.decEqPairs as bs with
      | isTrue hk, isTrue hv, isTrue ht => isTrue (by rw [hk, hv, ht])
      | isFalse hk, _, _ =>
          isFalse (fun h => by injection h with hh ht; injection hh with hk2 hv2; exact hk hk2)
      | _, isFalse hv, _ =>
          isFalse (fun h => by injection h with hh ht; injection hh with hk2 hv2; exact hv hv2)
      | _, _, isFalse ht =>
          isFalse (fun h => by injection h with hh ht2; exact ht ht2)

end

instance : DecidableEq Value := Value.decEq

/-- A Python dict with string keys, as an insertion-ordered association list. -/
abbrev Ctx := List (String × Value)

/-- Lookup of a key in an association list (first match), as Python dict access. -/
def alGet {α : Type} : List (String × α) → String → Option α
  | [], _ => none
  | (k, v) :: rest, key => if k = key then some v else alGet rest key

/-- Assignment `m[k] = v` on a Python dict: overwrite in place when the key is
present (keeping its position), append otherwise. -/
def alSet {α : Type} (m : List (String × α)) (key : String) (v : α) : List (String × α) :=
  if (alGet m key).isSome then
    m.map (fun p => if p.1 = key then (key, v) else p)
  else
    m ++ [(key, v)]

/-- Embedding of `dict.update`: fold single-key assignment over the updates. -/
def ctxUpdate (base upd : Ctx) : Ctx :=
  upd.foldl (fun m p => alSet m p.1 p.2) base

/-- Conversion of a value to a string, as Python `str` on the scalar values the
connectors substitute into templates.  The rendering of containers is a
canonical approximation of `repr` (no claim depends on it). -/
def pyStr : Value → String
  | Value.null => "None"
  | Value.bool b => if b then "True" else "False"
  | Value.int n => toString n
  | Value.str s => s
  | Value.list vs => "[" ++ String.intercalate ", " (pyStrList vs) ++ "]"
  | Value.dict kvs => "\x7b" ++ String.intercalate ", " (pyStrPairs kvs) ++ "\x7d"
where
  pyStrList : List Value → List String
    | [] => []
    | v :: vs => pyStr v :: pyStrList vs
  pyStrPairs : List (String × Value) → List String
    | [] => []
    | (k, v) :: kvs => (k ++ ": " ++ pyStr v) :: pyStrPairs kvs

/-- Embedding of CPython `str.format(**context)` restricted to the fragment the
source uses: simple named fields `\x7bname\x7d` and the escapes `\x7b\x7b`,
`\x7d\x7d`.  Conversions, format specs, attribute and item access, and
positional fields are outside the modelled fragment.  The mode argument is
`none` outside a replacement field and `some acc` inside one with the reversed
name characters read so far.  Returns `none` where CPython raises `KeyError`
(missing name) or `ValueError` (stray or unterminated brace). -/
def pyFormatCore (ctx : Ctx) : Option (List Char) → List Char → Option String
  | none, [] => some ""
  | none, '{' :: '{' :: rest => (pyFormatCore ctx none rest).map (fun t => "\x7b" ++ t)
  | none, '{' :: rest => pyFormatCore ctx (some []) rest
  | none, '}' :: '}' :: rest => (pyFormatCore ctx none rest).map (fun t => "\x7d" ++ t)
  | none, '}' :: _ => none
  | none, c :: rest => (pyFormatCore ctx none rest).map (fun t => String.mk [c] ++ t)
  | some _, [] => none
  | some acc, '}' :: rest =>
      match alGet ctx (String.mk acc.reverse) with
      | none => none
      | some v => (pyFormatCore ctx none rest).map (fun t => pyStr v ++ t)
  | some acc, c :: rest => pyFormatCore ctx (some (c :: acc)) rest

/-- Formatting of a whole string via `pyFormatCore`. -/
def pyFormat (s : String) (ctx : Ctx) : Option String :=
  pyFormatCore ctx none s.data

/-- Embedding of the source's tolerant rendering of one template string:
`value.format(**context)` guarded by `except (KeyError, ValueError)`, which
returns the original string untouched on any such failure. -/
def renderStr (s : String) (ctx : Ctx) : String :=
  match pyFormat s ctx with
  | some r => r
  | none => s

/-- Modelled from the spec: per-placeholder tolerant substitution, following
the words of the specification — each `\x7bname\x7d` placeholder whose name is
a key of the context is replaced by that context value, a placeholder whose
name is missing is left as its original unresolved text, and stray braces are
kept as text.  Used only to compare the spec's substitution semantics with the
source's `renderStr`. -/
def substTolerantCore (ctx : Ctx) : Option (List Char) → List Char → String
  | none, [] => ""
  | none, '{' :: '{' :: rest => "\x7b" ++ substTolerantCore ctx none rest
  | none, '{' :: rest => substTolerantCore ctx (some []) rest
  | none, '}' :: '}' :: rest => "\x7d" ++ substTolerantCore ctx none rest
  | none, '}' :: rest => "\x7d" ++ substTolerantCore ctx none rest
  | none, c :: rest => String.mk [c] ++ substTolerantCore ctx none rest
  | some acc, [] => "\x7b" ++ String.mk acc.reverse
  | some acc, '}' :: rest =>
      match alGet ctx (String.mk acc.reverse) with
      | some v => pyStr v ++ substTolerantCore ctx none rest
      | none => "\x7b" ++ String.mk acc.reverse ++ "\x7d" ++ substTolerantCore ctx none rest
  | some acc, c :: rest => substTolerantCore ctx (some (c :: acc)) rest

/-- Per-placeholder tolerant substitution on a whole string (spec-side). -/
def substTolerant (s : String) (ctx : Ctx) : String :=
  substTolerantCore ctx none s.data

/-- Embedding of `WebhookConnector._render_value`: recursive template
rendering over a value — strings through `renderStr`, dicts and lists
element-wise, everything else unchanged. -/
def renderValue (ctx : Ctx) : Value → Value
  | Value.null => Value.null
  | Value.str s => Value.str (renderStr s ctx)
  | Value.dict kvs => Value.dict (renderPairs ctx kvs)
  | Value.list vs => Value.list (renderList ctx vs)
  | Value.bool b => Value.bool b
  | Value.int n => Value.int n
where
  renderList (ctx : Ctx) : List Value → List Value
    | [] => []
    | v :: vs => renderValue ctx v :: renderList ctx vs
  renderPairs (ctx : Ctx) : List (String × Value) → List (String × Value)
    | [] => []
    | (k, v) :: kvs => (k, renderValue ctx v) :: renderPairs ctx kvs

/-- Embedding of `WebhookConnector._render_headers`: each string-valued header
is rendered tolerantly, any non-string value is converted with `str`. -/
def renderHeaders (headers : List (String × Value)) (ctx : Ctx) : List (String × String) :=
  headers.map (fun p =>
    match p.2 with
    | Value.str s => (p.1, renderStr s ctx)
    | v => (p.1, pyStr v))

/-- Embedding of `WebhookConnector._render_body`: a dict body is rendered
entry-wise, a list element-wise, anything else through `renderValue`. -/
def renderBody (body : Option Value) (ctx : Ctx) : Option Value :=
  match body with
  | none => none
  | some (Value.dict kvs) => some (Value.dict (kvs.map (fun p => (p.1, renderValue ctx p.2))))
  | some (Value.list vs) => some (Value.list (vs.map (fun v => renderValue ctx v)))
  | some v => some (renderValue ctx v)

/-- Raised Python exceptions relevant to the system, with their `str(e)`
message: the storage error hierarchy from `storage/base.py`, pydantic
validation failures, `ValueError`, and attribute lookup failures. -/
inductive PyErr where
  | notFound (msg : String) : PyErr
  | alreadyExists (msg : String) : PyErr
  | validationErr (msg : String) : PyErr
  | valueErr (msg : String) : PyErr
  | attributeErr (msg : String) : PyErr
deriving DecidableEq, Repr

/-- Message carried by an exception, as Python `str(e)`. -/
def PyErr.msg : PyErr → String
  | .notFound m => m
  | .alreadyExists m => m
  | .validationErr m => m
  | .valueErr m => m
  | .attributeErr m => m

/-- Embedding of `DelayConfig`: the inherited `type` tag and the validated
`seconds` field (`int`, `gt=0`). -/
structure DelayConfig where
  type : String
  seconds : Int
deriving DecidableEq, Repr

/-- Removal of leading and trailing whitespace from a character list, since
Python's numeric-string coercion ignores surrounding whitespace. -/
def trimWs (cs : List Char) : List Char :=
  ((cs.dropWhile Char.isWhitespace).reverse.dropWhile Char.isWhitespace).reverse

/-- Decimal value of a digit list. -/
def digitsVal (ds : List Char) : Nat :=
  ds.foldl (fun a c => a * 10 + (c.toNat - 48)) 0

/-- Parse of an unsigned decimal integer spelling: one or more digits,
optionally followed by a fractional part that is all zeros (the integral
float spelling `5.0` that lax coercion admits). -/
def parseNatPart (cs : List Char) : Option Nat :=
  let ds := cs.takeWhile Char.isDigit
  let rest := cs.dropWhile Char.isDigit
  if ds.isEmpty then none
  else
    match rest with
    | [] => some (digitsVal ds)
    | '.' :: frac => if frac.all (fun c => c == '0') then some (digitsVal ds) else none
    | _ => none

/-- Pydantic v2 lax coercion of a string to an integer: surrounding
whitespace is ignored, an optional sign precedes the digits, and an integral
float spelling such as `5.0` is admitted.  Exponent notation and digit
underscores are not modelled. -/
def pyIntOfString (s : String) : Option Int :=
  match trimWs s.data with
  | '-' :: rest => (parseNatPart rest).map (fun n => -(n : Int))
  | '+' :: rest => (parseNatPart rest).map (fun n => (n : Int))
  | cs => (parseNatPart cs).map (fun n => (n : Int))

/-- Pydantic v2 lax validation of a value against the `int` type of the
`seconds` field: an integer passes through, a string is coerced by
`pyIntOfString`, and every other value fails — booleans in particular, which
pydantic rejects for `int` fields.  `Value` has no floating-point
constructor, so float inputs (which the program would coerce when integral)
lie outside the modelled value universe. -/
def pyLaxInt : Value → Option Int
  | Value.int n => some n
  | Value.str s => pyIntOfString s
  | _ => none

/-- Parsing of a raw step config map by the pydantic `DelayConfig` schema with
`extra=forbid`: only the keys `type` (an optional string defaulting to
`delay`) and `seconds` (required, an integer after lax coercion via
`pyLaxInt`, strictly greater than zero) are admitted; the first failing check
supplies the error.  Returns the parsed config or a `ValidationError`. -/
def delayConfigParse (raw : Ctx) : Except PyErr DelayConfig :=
  match raw.find? (fun p => !(p.1 == "type" || p.1 == "seconds")) with
  | some p => .error (.validationErr ("Extra inputs are not permitted: " ++ p.1))
  | none =>
    match alGet raw "type" with
    | some (Value.str t) => delaySeconds raw t
    | some _ => .error (.validationErr "Input should be a valid string: type")
    | none => delaySeconds raw "delay"
where
  delaySeconds (raw : Ctx) (t : String) : Except PyErr DelayConfig :=
    match alGet raw "seconds" with
    | some v =>
        match pyLaxInt v with
        | some n =>
            if 0 < n then .ok { type := t, seconds := n }
            else .error (.validationErr "Input should be greater than 0: seconds")
        | none => .error (.validationErr "Input should be a valid integer: seconds")
    | none => .error (.validationErr "Field required: seconds")

/-- Embedding of `DelayConnector.execute`: suspend for the configured number
of seconds (the wall-clock suspension is not modelled) and return the context
unchanged.  The connector has no other behaviour. -/
def delayExecute (_cfg : DelayConfig) (context : Ctx) : Ctx :=
  context

/-- Test that the pattern is an initial segment of the character list. -/
def leadsWith : List Char → List Char → Bool
  | [], _ => true
  | _ :: _, [] => false
  | a :: as, b :: bs => a == b && leadsWith as bs

/-- Substring containment on character lists, as the Python `in` operator. -/
def containsSub (pat : List Char) : List Char → Bool
  | [] => leadsWith pat []
  | c :: rest => leadsWith pat (c :: rest) || containsSub pat rest

/-- Split a character list at the first occurrence of `://`. -/
def splitSchemeRest : List Char → Option (List Char × List Char)
  | [] => none
  | ':' :: '/' :: '/' :: rest => some ([], rest)
  | c :: rest => (splitSchemeRest rest).map (fun p => (c :: p.1, p.2))

/-- Approximation of the `urlparse`-based check in `WebhookConfig`: a string
URL is valid when it has a nonempty scheme before the first `://` and a
nonempty network location (the characters before the next `/`) after it. -/
def urlValid (s : String) : Bool :=
  match splitSchemeRest s.data with
  | some (sch, rest) => !sch.isEmpty && !(rest.takeWhile (fun c => c != '/')).isEmpty
  | none => false

/-- Embedding of `WebhookConfig`: target URL, HTTP method (normalized to upper
case by the field validator), optional headers and optional structured body.
Pydantic's `HttpUrl` normalization of the URL text is not modelled. -/
structure WebhookConfig where
  type : String
  url : String
  method : String
  headers : List (String × Value)
  body : Option Value
deriving DecidableEq, Repr

/-- Parsing of a raw step config map by the pydantic `WebhookConfig` schema
with `extra=forbid`: `url` is required and checked by `urlValid`, `method`
defaults to `POST` and is upper-cased, `headers` must be a dict of strings
(default empty), `body` an optional dict. -/
def webhookConfigParse (raw : Ctx) : Except PyErr WebhookConfig :=
  match raw.find? (fun p =>
      !(p.1 == "type" || p.1 == "url" || p.1 == "method" || p.1 == "headers" || p.1 == "body")) with
  | some p => .error (.validationErr ("Extra inputs are not permitted: " ++ p.1))
  | none =>
    match alGet raw "type" with
    | some (Value.str t) => webhookUrl raw t
    | some _ => .error (.validationErr "Input should be a valid string: type")
    | none => webhookUrl raw "webhook"
where
  webhookUrl (raw : Ctx) (t : String) : Except PyErr WebhookConfig :=
    match alGet raw "url" with
    | some (Value.str u) =>
        if urlValid u then webhookMethod raw t u
        else .error (.validationErr "Invalid URL")
    | some _ => .error (.validationErr "URL input should be a string or URL: url")
    | none => .error (.validationErr "Field required: url")
  webhookMethod (raw : Ctx) (t u : String) : Except PyErr WebhookConfig :=
    match alGet raw "method" with
    | some (Value.str m) => webhookHeaders raw t u (String.mk (m.data.map Char.toUpper))
    | some _ => .error (.validationErr "Input should be a valid string: method")
    | none => webhookHeaders raw t u "POST"
  webhookHeaders (raw : Ctx) (t u m : String) : Except PyErr WebhookConfig :=
    match alGet raw "headers" with
    | some (Value.dict kvs) =>
        if kvs.all (fun p => match p.2 with | Value.str _ => true | _ => false) then
          webhookBody raw t u m kvs
        else .error (.validationErr "Input should be a valid string: headers")
    | some _ => .error (.validationErr "Input should be a valid dictionary: headers")
    | none => webhookBody raw t u m []
  webhookBody (raw : Ctx) (t u m : String) (hs : List (String × Value)) :
      Except PyErr WebhookConfig :=
    match alGet raw "body" with
    | some (Value.dict kvs) => .ok { type := t, url := u, method := m, headers := hs, body := some (Value.dict kvs) }
    | some Value.null => .ok { type := t, url := u, method := m, headers := hs, body := none }
    | some _ => .error (.validationErr "Input should be a valid dictionary: body")
    | none => .ok { type := t, url := u, method := m, headers := hs, body := none }

/-- Outcome of the single HTTP request a webhook step issues, supplied as an
oracle for the external network.  A `response` carries the status code, the
response headers, the raw text body, the result of attempting to parse the
body as JSON (`Except` the parse failure message), and the message of the
`HTTPStatusError` that `raise_for_status` would raise for this response. -/
inductive HttpOutcome where
  | transportError (msg : String) : HttpOutcome
  | response (status : Nat) (headers : List (String × String)) (text : String)
      (jsonBody : Except String Value) (statusMsg : String) : HttpOutcome

/-- Case-insensitive header lookup, as on `httpx` response headers. -/
def hdrGet (headers : List (String × String)) (key : String) : Option String :=
  (headers.find? (fun p => p.1.toLower == key.toLower)).map (fun p => p.2)

/-- Substring test used for the `"application/json" in content-type` check. -/
def containsJsonTag (ct : String) : Bool :=
  containsSub "application/json".data ct.data

/-- The `response` value the webhook connector adds to the context on success:
status code, headers, and the parsed JSON body or raw text. -/
def mkResponseValue (status : Nat) (headers : List (String × String)) (body : Value) : Value :=
  Value.dict
    [("status_code", Value.int (Int.ofNat status)),
     ("headers", Value.dict (headers.map (fun p => (p.1, Value.str p.2)))),
     ("body", body)]

/-- Embedding of `WebhookConnector.execute`.  The whole request body sits in a
`try` whose handler catches every exception and returns a copy of the context
with an added `error` key holding `str(e)`; therefore a transport failure, a
non-2xx status (via `raise_for_status`), or a JSON decoding failure of an
`application/json` response all yield the error-keyed context instead of
raising.  On success the connector returns a copy of the context with an added
`response` key. -/
def webhookExecute (_cfg : WebhookConfig) (context : Ctx) (world : HttpOutcome) : Ctx :=
  match world with
  | .transportError msg => alSet context "error" (Value.str msg)
  | .response status headers text jsonBody statusMsg =>
      if !(200 ≤ status && status ≤ 299) then
        alSet context "error" (Value.str statusMsg)
      else
        let ct := (hdrGet headers "content-type").getD ""
        if containsJsonTag ct then
          match jsonBody with
          | .error jmsg => alSet context "error" (Value.str jmsg)
          | .ok v => alSet context "response" (mkResponseValue status headers v)
        else
          alSet context "response" (mkResponseValue status headers (Value.str text))

/-- The rendered request payload a webhook step sends: headers through
`renderHeaders` and, when a body is configured, the body through
`renderBody`.  Separated from `webhookExecute` because the network is an
oracle; the payload does not influence the modelled outcome. -/
def webhookPayload (cfg : WebhookConfig) (context : Ctx) :
    List (String × String) × Option Value :=
  (renderHeaders cfg.headers context,
   if cfg.body.isSome then renderBody cfg.body context else none)

/-- Embedding of `StepDefinition`: id, connector type tag (the string value of
the `StepType` enum), raw config map, optional successor. -/
structure StepDefinition where
  id : String
  type : String
  config : Ctx
  next_step_id : Option String
deriving DecidableEq, Repr

/-- Embedding of `WorkflowDefinition` after successful construction. -/
structure WorkflowDefinition where
  id : String
  name : String
  entry_point : String
  steps : List StepDefinition
deriving DecidableEq, Repr

/-- Construction of a `WorkflowDefinition`, running the pydantic validators in
order: `validate_steps` rejects duplicate step ids by comparing the id list
with its set of distinct ids, then `validate_entry_point` rejects an
`entry_point` outside the step ids and the first `next_step_id` that is not a
step id.  The steps' config maps are never consulted. -/
def mkWorkflowDefinition (idv name entry : String) (steps : List StepDefinition) :
    Except PyErr WorkflowDefinition :=
  let ids := steps.map (fun s => s.id)
  if ids.length ≠ ids.dedup.length then
    .error (.validationErr "Step IDs must be unique within a workflow")
  else if entry ∉ ids then
    .error (.validationErr ("entry_point " ++ entry ++ " must be a valid step ID"))
  else
    match steps.find? (fun s =>
        match s.next_step_id with
        | some nx => !(ids.contains nx)
        | none => false) with
    | some s =>
        .error (.validationErr ("next_step_id in step " ++ s.id ++ " is not a valid step ID"))
    | none => .ok { id := idv, name := name, entry_point := entry, steps := steps }

/-- Embedding of `WorkflowDefinition.get_step` via the engine's inline lookup
`next((s for s in workflow.steps if s.id == step_id), None)`. -/
def findStep (wf : WorkflowDefinition) (step_id : String) : Option StepDefinition :=
  wf.steps.find? (fun s => s.id == step_id)

/-- Run statuses from `models/run.py`. -/
inductive RunStatus where
  | pending | running | completed | failed | paused
deriving DecidableEq, Repr

/-- Step statuses from `models/run.py`. -/
inductive StepStatus where
  | pending | running | completed | failed | skipped
deriving DecidableEq, Repr

/-- Embedding of `StepRun`.  Timestamps are abstract clock ticks; a field of
`some t` models a datetime that has been set. -/
structure StepRun where
  step_id : String
  status : StepStatus
  start_time : Option Nat
  end_time : Option Nat
  error : Option String
  output : Option Ctx
deriving DecidableEq, Repr

/-- The freshly created `StepRun(step_id=step_id)` with all defaults. -/
def initStepRun (step_id : String) : StepRun :=
  { step_id := step_id, status := .pending, start_time := none, end_time := none,
    error := none, output := none }

/-- Embedding of `WorkflowRun`. -/
structure WorkflowRun where
  run_id : String
  workflow_id : String
  status : RunStatus
  created_at : Nat
  started_at : Option Nat
  completed_at : Option Nat
  context : Ctx
  steps : List (String × StepRun)
  current_step_id : Option String
  error : Option String
deriving DecidableEq, Repr

/-- Embedding of `WorkflowRun.add_step`: register a pending step run unless
the id is already present. -/
def addStep (r : WorkflowRun) (step_id : String) : WorkflowRun :=
  if (alGet r.steps step_id).isSome then r
  else { r with steps := r.steps ++ [(step_id, initStepRun step_id)] }

/-- Update of the step-run entry for a given id, in place. -/
def stepAdjust (steps : List (String × StepRun)) (step_id : String) (f : StepRun → StepRun) :
    List (String × StepRun) :=
  steps.map (fun p => if p.1 = step_id then (p.1, f p.2) else p)

/-- Embedding of `WorkflowRun.start_step`: ensure the step run exists, mark it
running with a start time, and promote a still-pending run to running. -/
def startStep (r : WorkflowRun) (step_id : String) (t : Nat) : WorkflowRun :=
  let r1 := if (alGet r.steps step_id).isSome then r else addStep r step_id
  let steps2 := stepAdjust r1.steps step_id
    (fun sr => { sr with status := .running, start_time := some t })
  let r2 := { r1 with steps := steps2 }
  if r2.status = .pending then { r2 with status := .running, started_at := some t } else r2

/-- Embedding of `WorkflowRun.complete_step`: when the id is registered, mark
it completed with an end time and record the given output (`output or \x7b\x7d`). -/
def completeStep (r : WorkflowRun) (step_id : String) (out : Ctx) (t : Nat) : WorkflowRun :=
  if (alGet r.steps step_id).isSome then
    let steps2 := stepAdjust r.steps step_id
      (fun sr => { sr with status := .completed, end_time := some t, output := some out })
    { r with steps := steps2 }
  else r

/-- Embedding of `WorkflowRun.fail_step`: when the id is registered, mark the
step failed with an end time and the error text, and mark the whole run failed
with `completed_at` and the same error text. -/
def failStep (r : WorkflowRun) (step_id : String) (err : String) (t : Nat) : WorkflowRun :=
  if (alGet r.steps step_id).isSome then
    let steps2 := stepAdjust r.steps step_id
      (fun sr => { sr with status := .failed, end_time := some t, error := some err })
    let r2 := { r with steps := steps2 }
    { r2 with status := .failed, completed_at := some t, error := some err }
  else r

/-- A storage directory: one persisted record per entity id, as written by
`FilesystemStorage`.  The JSON round trip through `model_dump_json` and
`model_validate_json` is modelled as the identity. -/
abbrev Store (E : Type) := List (String × E)

/-- Embedding of `FilesystemStorage._create`: refuse a falsy id, refuse an id
whose record file already exists, otherwise persist the entity.  Returns the
possibly-updated directory along with the result. -/
def storeCreate {E : Type} (modelName : String) (idOf : E → String) (s : Store E) (e : E) :
    Store E × Except PyErr E :=
  if idOf e = "" then
    (s, .error (.valueErr "Entity must have an id or run_id attribute."))
  else if (alGet s (idOf e)).isSome then
    (s, .error (.alreadyExists (modelName ++ " with ID " ++ idOf e ++ " already exists.")))
  else
    (s ++ [(idOf e, e)], .ok e)

/-- Embedding of `FilesystemStorage._get`: fail with `NotFoundError` when no
record file exists, otherwise parse and return the record. -/
def storeGet {E : Type} (modelName : String) (s : Store E) (id : String) : Except PyErr E :=
  match alGet s id with
  | none => .error (.notFound (modelName ++ " with ID " ++ id ++ " not found."))
  | some e => .ok e

/-- Embedding of `FilesystemStorage._update`: refuse a falsy id, fail with
`NotFoundError` when no record file exists, otherwise overwrite the record. -/
def storeUpdate {E : Type} (modelName : String) (idOf : E → String) (s : Store E) (e : E) :
    Store E × Except PyErr E :=
  if idOf e = "" then
    (s, .error (.valueErr "Entity must have an id or run_id attribute."))
  else if (alGet s (idOf e)).isSome then
    (alSet s (idOf e) e, .ok e)
  else
    (s, .error (.notFound (modelName ++ " with ID " ++ idOf e ++ " not found.")))

/-- The connectors registered in `WorkflowEngine.CONNECTOR_MAP`. -/
inductive ConnectorKind where
  | delay | webhook
deriving DecidableEq, Repr

/-- Embedding of `CONNECTOR_MAP.get` on the step type tag: the static dispatch
table maps the `StepType` string values to their connector. -/
def connectorLookup (t : String) : Option ConnectorKind :=
  if t = "delay" then some ConnectorKind.delay
  else if t = "webhook" then some ConnectorKind.webhook
  else none

/-- Embedding of `WorkflowEngine._execute_step`: look the step type up in the
dispatch table (`ValueError` with message `Unsupported step type: ...` when
absent), parse the raw config against the connector's schema, then run the
connector on the context.  A raised exception is returned as `.error` holding
`str(e)`; the webhook connector's HTTP world is the oracle argument. -/
def executeStep (sd : StepDefinition) (context : Ctx) (world : HttpOutcome) :
    Except String Ctx :=
  match connectorLookup sd.type with
  | none => .error ("Unsupported step type: " ++ sd.type)
  | some ConnectorKind.delay =>
      match delayConfigParse sd.config with
      | .error e => .error e.msg
      | .ok cfg => .ok (delayExecute cfg context)
  | some ConnectorKind.webhook =>
      match webhookConfigParse sd.config with
      | .error e => .error e.msg
      | .ok cfg => .ok (webhookExecute cfg context world)

/-- Embedding of the `while run.current_step_id` loop of
`WorkflowEngine._execute_workflow`, with fuel bounding the number of
iterations (the source loop does not terminate on a cyclic chain), a step
counter `k` selecting each step's HTTP outcome from the oracle, and a clock
counter `t`.  Storage writes are full overwrites that the loop's own reads
never observe stale, so the run value is threaded directly; the returned run
is the final persisted state.  The `none` branch of `findStep` models the
raised `ValueError` reaching the outer handler, which reloads the run (equal
to the threaded value, since every mutation so far was persisted) and force
fails it with the bare exception text. -/
def executeLoop (wf : WorkflowDefinition) (world : Nat → HttpOutcome) :
    Nat → Nat → Nat → WorkflowRun → WorkflowRun
  | 0, _, _, run => run
  | fuel + 1, k, t, run =>
    match run.current_step_id with
    | none => { run with status := .completed, completed_at := some t }
    | some sid =>
      match findStep wf sid with
      | none =>
          { run with
            status := RunStatus.failed
            error := some ("Step " ++ sid ++ " not found in workflow " ++ wf.id)
            completed_at := some t }
      | some sd =>
        let run1 := startStep run sid t
        match executeStep sd run1.context (world k) with
        | .ok out =>
            let run2 := if out.isEmpty then run1
              else { run1 with context := ctxUpdate run1.context out }
            let run3 := completeStep run2 sid out (t + 1)
            let run4 := { run3 with current_step_id := sd.next_step_id }
            executeLoop wf world fuel (k + 1) (t + 2) run4
        | .error msg =>
            let run2 := failStep run1 sid msg (t + 1)
            { run2 with
              status := RunStatus.failed
              error := some ("Step " ++ sid ++ " failed: " ++ msg)
              completed_at := some (t + 2) }

/-- Embedding of `WorkflowEngine.start_workflow`: load the definition (a
`NotFoundError` propagates to the caller before anything is written), persist
a fresh pending run, then set context, entry point, running status and start
time, pre-populate one pending step run per defined step, persist the updated
run, and return it.  The background task executing the loop is scheduled
separately (`executeLoop`); the call returns before any step has run.  The
fresh `uuid4` run id is an argument.  Returns the run storage directory after
the call together with the result. -/
def startWorkflow (wfStore : Store WorkflowDefinition) (runStore : Store WorkflowRun)
    (workflow_id : String) (context : Option Ctx) (newRunId : String) (now : Nat) :
    Store WorkflowRun × Except PyErr WorkflowRun :=
  match storeGet "WorkflowDefinition" wfStore workflow_id with
  | .error e => (runStore, .error e)
  | .ok wf =>
    let run0 : WorkflowRun :=
      { run_id := newRunId, workflow_id := workflow_id, status := .pending,
        created_at := now, started_at := none, completed_at := none, context := [],
        steps := [], current_step_id := none, error := none }
    match storeCreate "WorkflowRun" (fun r => r.run_id) runStore run0 with
    | (s1, .error e) => (s1, .error e)
    | (s1, .ok _) =>
      let run1 :=
        { run0 with
          context := context.getD []
          current_step_id := some wf.entry_point
          status := RunStatus.running
          started_at := some now }
      let run2 := wf.steps.foldl (fun r s => addStep r s.id) run1
      match storeUpdate "WorkflowRun" (fun r => r.run_id) s1 run2 with
      | (s2, .error e) => (s2, .error e)
      | (s2, .ok _) => (s2, .ok run2)

/-- Embedding of the `WorkflowEngine` object's attribute state: `__init__`
assigns exactly `workflow_storage` and `run_storage`; the `storage` field
models the attribute of that name, which no code path ever assigns, so an
engine as constructed carries `none` there and reading it raises
`AttributeError`. -/
structure WorkflowEngineState where
  workflow_storage : Store WorkflowDefinition
  run_storage : Store WorkflowRun
  storage : Option (Store WorkflowRun)

/-- Embedding of `WorkflowEngine.__init__`. -/
def engineInit (ws : Store WorkflowDefinition) (rs : Store WorkflowRun) :
    WorkflowEngineState :=
  { workflow_storage := ws, run_storage := rs, storage := none }

/-- Embedding of `WorkflowEngine.get_run_status`, which reads
`self.storage`. -/
def engineGetRunStatus (eng : WorkflowEngineState) (run_id : String) :
    Except PyErr WorkflowRun :=
  match eng.storage with
  | none => .error (.attributeErr "WorkflowEngine object has no attribute storage")
  | some st => storeGet "WorkflowRun" st run_id

/-- Embedding of `FilesystemStorage.list_runs` filtering on `workflow_id`. -/
def storeListRuns (s : Store WorkflowRun) (workflow_id : String) : List WorkflowRun :=
  (s.filter (fun p => p.2.workflow_id == workflow_id)).map (fun p => p.2)

/-- Embedding of `WorkflowEngine.list_workflow_runs`, which reads
`self.storage`. -/
def engineListWorkflowRuns (eng : WorkflowEngineState) (workflow_id : String) :
    Except PyErr (List WorkflowRun) :=
  match eng.storage with
  | none => .error (.attributeErr "WorkflowEngine object has no attribute storage")
  | some st => .ok (storeListRuns st workflow_id)

/-! ### Concrete fixtures used as witnesses and counterexamples -/

/-- A two-step chain: a one-second delay followed by a webhook. -/
def wfChain : WorkflowDefinition :=
  { id := "w1", name := "Invoice reminder", entry_point := "s1",
    steps :=
      [ { id := "s1", type := "delay", config := [("seconds", Value.int 1)],
          next_step_id := some "s2" },
        { id := "s2", type := "webhook", config := [("url", Value.str "http://localhost:8001/notify")],
          next_step_id := none } ] }

/-- A chain whose first step has a config its schema rejects (`seconds = 0`). -/
def wfBadDelay : WorkflowDefinition :=
  { id := "w2", name := "Broken", entry_point := "a",
    steps :=
      [ { id := "a", type := "delay", config := [("seconds", Value.int 0)],
          next_step_id := some "b" },
        { id := "b", type := "delay", config := [("seconds", Value.int 1)],
          next_step_id := none } ] }

/-- A single-step webhook chain used for the output-recording counterexample. -/
def wfHook : WorkflowDefinition :=
  { id := "w3", name := "Hook", entry_point := "h1",
    steps :=
      [ { id := "h1", type := "webhook", config := [("url", Value.str "http://h/p")],
          next_step_id := none } ] }

/-- A run of `wfHook` as `startWorkflow` would create it, with initial context
holding the key `k`. -/
def runHook : WorkflowRun :=
  { run_id := "r3", workflow_id := "w3", status := RunStatus.running, created_at := 0,
    started_at := some 0, completed_at := none, context := [("k", Value.str "v")],
    steps := [("h1", initStepRun "h1")], current_step_id := some "h1", error := none }

/-- A run of `wfBadDelay` as `startWorkflow` would create it. -/
def runBadDelay : WorkflowRun :=
  { run_id := "r2", workflow_id := "w2", status := RunStatus.running, created_at := 0,
    started_at := some 0, completed_at := none, context := [],
    steps := [("a", initStepRun "a"), ("b", initStepRun "b")],
    current_step_id := some "a", error := none }

/-- An HTTP world in which every request succeeds with a plain-text 200. -/
def worldText200 : Nat → HttpOutcome :=
  fun _ => HttpOutcome.response 200 [] "ok" (Except.error "no json") "OK"

/-- An HTTP world in which every request fails at transport level. -/
def worldDown : Nat → HttpOutcome :=
  fun _ => HttpOutcome.transportError "Connection refused"

/-- The persisted run left behind by executing `wfHook` on `runHook` against
`worldText200`. -/
def runHookFinal : WorkflowRun :=
  executeLoop wfHook worldText200 2 0 1 runHook

/-- A parsed webhook configuration used to exercise the connector directly. -/
def cfgHook : WebhookConfig :=
  { type := "webhook", url := "http://h/p", method := "POST", headers := [], body := none }

/-- A delay config map that also supplies the inherited `type` tag. -/
def rawDelayWithType : Ctx :=
  [("seconds", Value.int 5), ("type", Value.str "delay")]

/-- Modelled from the spec: the acceptance condition claimed for the Delay
configuration — the raw map provides the single field `seconds` holding a
strictly positive integer and nothing else. -/
def specDelaySingleField (raw : Ctx) : Prop :=
  ∃ n : Int, raw = [("seconds", Value.int n)] ∧ 0 < n

/-- The first step of `wfBadDelay`. -/
def sdBad : StepDefinition :=
  { id := "a", type := "delay", config := [("seconds", Value.int 0)], next_step_id := some "b" }

/-- The single step of `wfHook`. -/
def sdHook : StepDefinition :=
  { id := "h1", type := "webhook", config := [("url", Value.str "http://h/p")],
    next_step_id := none }

/-- A step whose type tag is absent from the connector dispatch table. -/
def sdEmail : StepDefinition :=
  { id := "e1", type := "email", config := [("to", Value.str "x@y")], next_step_id := none }

/-- A parsed delay configuration. -/
def cfgDelay3 : DelayConfig := { type := "delay", seconds := 3 }

/-- A well-formed two-step chain used to exercise definition validation. -/
def stepsGood : List StepDefinition :=
  [ { id := "a", type := "delay", config := [("seconds", Value.int 1)], next_step_id := some "b" },
    { id := "b", type := "delay", config := [("seconds", Value.int 1)], next_step_id := none } ]

/-! ### Derived shapes of the run mutators

The following lemmas compute the effect of `startStep`, `completeStep` and
`failStep` on a run whose step entry is already registered (as is the case for
every step of a run created by `startWorkflow`). -/

/-- Shape of `startStep` on a registered step id: only the step entry, the
run status and `started_at` can change; context, chain position and error
bookkeeping are untouched. -/
theorem startStep_shape (r : WorkflowRun) (sid : String) (t : Nat)
    (h : (alGet r.steps sid).isSome = true) :
    (startStep r sid t).context = r.context ∧
    (startStep r sid t).current_step_id = r.current_step_id ∧
    (startStep r sid t).completed_at = r.completed_at ∧
    (startStep r sid t).error = r.error ∧
    (startStep r sid t).steps =
      stepAdjust r.steps sid (fun sr => { sr with status := StepStatus.running, start_time := some t }) := by
  unfold startStep
  rw [if_pos h]
  dsimp only
  refine ⟨?_, ?_, ?_, ?_, ?_⟩ <;> (split_ifs <;> rfl)

/-- Shape of `completeStep` on a registered step id. -/
theorem completeStep_shape (r : WorkflowRun) (sid : String) (out : Ctx) (t : Nat)
    (h : (alGet r.steps sid).isSome = true) :
    completeStep r sid out t =
      { r with steps := stepAdjust r.steps sid (fun sr =>
          { sr with status := StepStatus.completed, end_time := some t, output := some out }) } := by
  unfold completeStep
  rw [if_pos h]

/-- Shape of `failStep` on a registered step id. -/
theorem failStep_shape (r : WorkflowRun) (sid : String) (err : String) (t : Nat)
    (h : (alGet r.steps sid).isSome = true) :
    failStep r sid err t =
      { r with
        steps := stepAdjust r.steps sid (fun sr =>
          { sr with status := StepStatus.failed, end_time := some t, error := some err })
        status := RunStatus.failed
        completed_at := some t
        error := some err } := by
  unfold failStep
  rw [if_pos h]

/-! ### Association list lemmas -/

theorem alGet_append_of_none {α : Type} {a : List (String × α)} {k : String}
    (b : List (String × α)) (h : alGet a k = none) : alGet (a ++ b) k = alGet b k := by
  induction a with
  | nil => rfl
  | cons p rest ih =>
    simp only [alGet] at h ⊢
    split at h
    · exact absurd h (by simp)
    · rename_i hne
      simp only [List.cons_append, alGet, if_neg hne]
      exact ih h

theorem alGet_append_of_some {α : Type} {a : List (String × α)} {k : String} {v : α}
    (b : List (String × α)) (h : alGet a k = some v) : alGet (a ++ b) k = some v := by
  induction a with
  | nil => simp [alGet] at h
  | cons p rest ih =>
    simp only [alGet] at h ⊢
    split at h
    · rename_i heq
      simp only [List.cons_append, alGet, if_pos heq]
      exact h
    · rename_i hne
      simp only [List.cons_append, alGet, if_neg hne]
      exact ih h

theorem alGet_replace_self {α : Type} (s : List (String × α)) (k : String) (v : α) :
    alGet (s.map (fun p => if p.1 = k then (k, v) else p)) k =
      (alGet s k).map (fun _ => v) := by
  induction s with
  | nil => rfl
  | cons p rest ih =>
    simp only [List.map_cons]
    by_cases h : p.1 = k
    · rw [if_pos h]
      simp only [alGet, if_pos rfl, if_pos h]
      simp
    · rw [if_neg h]
      simp only [alGet, if_neg h]
      exact ih

theorem alGet_replace_ne {α : Type} (s : List (String × α)) (k j : String) (v : α)
    (hne : j ≠ k) :
    alGet (s.map (fun p => if p.1 = k then (k, v) else p)) j = alGet s j := by
  induction s with
  | nil => rfl
  | cons p rest ih =>
    simp only [List.map_cons]
    by_cases h : p.1 = k
    · have hpj : ¬ p.1 = j := fun hc => hne (hc ▸ h)
      have hkj : ¬ k = j := fun hc => hne hc.symm
      rw [if_pos h]
      simp only [alGet, if_neg hkj, if_neg hpj]
      exact ih
    · rw [if_neg h]
      by_cases h2 : p.1 = j
      · simp only [alGet, if_pos h2]
      · simp only [alGet, if_neg h2]
        exact ih

theorem alGet_alSet_self {α : Type} (s : List (String × α)) (k : String) (v : α) :
    alGet (alSet s k v) k = some v := by
  unfold alSet
  split
  · rename_i h
    rw [alGet_replace_self]
    rcases Option.isSome_iff_exists.mp h with ⟨w, hw⟩
    simp [hw]
  · rename_i h
    have hn : alGet s k = none := by
      cases he : alGet s k with
      | none => rfl
      | some w => rw [he] at h; simp at h
    rw [alGet_append_of_none _ hn]
    simp [alGet]

theorem alGet_alSet_ne {α : Type} (s : List (String × α)) (k j : String) (v : α)
    (hne : j ≠ k) : alGet (alSet s k v) j = alGet s j := by
  unfold alSet
  split
  · exact alGet_replace_ne s k j v hne
  · cases he : alGet s j with
    | none => rw [alGet_append_of_none _ he]; simp [alGet, he, Ne.symm hne]
    | some w => rw [alGet_append_of_some _ he]

theorem ctxUpdate_nil (base : Ctx) : ctxUpdate base [] = base := rfl

/-! ### Step-run bookkeeping lemmas -/

theorem stepAdjust_get_self (steps : List (String × StepRun)) (sid : String)
    (f : StepRun → StepRun) :
    alGet (stepAdjust steps sid f) sid = (alGet steps sid).map f := by
  induction steps with
  | nil => rfl
  | cons p rest ih =>
    simp only [stepAdjust, List.map_cons] at ih ⊢
    by_cases h : p.1 = sid
    · rw [if_pos h]
      simp only [alGet, if_pos h]
      simp
    · rw [if_neg h]
      simp only [alGet, if_neg h]
      exact ih

theorem stepAdjust_get_ne (steps : List (String × StepRun)) (sid j : String)
    (f : StepRun → StepRun) (hne : j ≠ sid) :
    alGet (stepAdjust steps sid f) j = alGet steps j := by
  induction steps with
  | nil => rfl
  | cons p rest ih =>
    simp only [stepAdjust, List.map_cons] at ih ⊢
    by_cases h : p.1 = sid
    · have hpj : ¬ p.1 = j := fun hc => hne (hc ▸ h)
      rw [if_pos h]
      simp only [alGet, if_neg hpj]
      exact ih
    · rw [if_neg h]
      by_cases h2 : p.1 = j
      · simp only [alGet, if_pos h2]
      · simp only [alGet, if_neg h2]
        exact ih

theorem stepAdjust_comp (steps : List (String × StepRun)) (sid : String)
    (f g : StepRun → StepRun) :
    stepAdjust (stepAdjust steps sid f) sid g =
      stepAdjust steps sid (fun sr => g (f sr)) := by
  induction steps with
  | nil => rfl
  | cons p rest ih =>
    simp only [stepAdjust, List.map_cons] at ih ⊢
    by_cases h : p.1 = sid
    · rw [if_pos h, if_pos h, if_pos h, ih]
    · rw [if_neg h, if_neg h, if_neg h, ih]

/-! ### Pre-population of step runs at start -/

theorem foldl_addStep (ss : List StepDefinition) (r : WorkflowRun)
    (hfresh : ∀ s ∈ ss, alGet r.steps s.id = none)
    (hnodup : (ss.map (fun s => s.id)).Nodup) :
    ss.foldl (fun r2 s => addStep r2 s.id) r =
      { r with steps := r.steps ++ ss.map (fun s => (s.id, initStepRun s.id)) } := by
  induction ss generalizing r with
  | nil => simp
  | cons s tl ih =>
    simp only [List.foldl_cons]
    have hs : alGet r.steps s.id = none := hfresh s (List.mem_cons_self s tl)
    have haddeq : addStep r s.id = { r with steps := r.steps ++ [(s.id, initStepRun s.id)] } := by
      unfold addStep
      rw [if_neg (by rw [hs]; simp)]
    rw [haddeq, ih]
    · simp
    · intro s2 hs2
      have h1 : alGet r.steps s2.id = none := hfresh s2 (List.mem_cons_of_mem _ hs2)
      rw [alGet_append_of_none _ h1]
      have hne : s2.id ≠ s.id := by
        intro hc
        have hmemid : s2.id ∈ List.map (fun s => s.id) tl :=
          List.mem_map_of_mem (fun s => s.id) hs2
        rw [hc] at hmemid
        exact (List.nodup_cons.mp hnodup).1 hmemid
      have hne2 : ¬ s.id = s2.id := fun hc => hne hc.symm
      simp [alGet, hne2]
    · exact (List.nodup_cons.mp hnodup).2

theorem alGet_map_of_mem (ss : List StepDefinition) (s : StepDefinition)
    (hmem : s ∈ ss) (hnodup : (ss.map (fun s => s.id)).Nodup) :
    alGet (ss.map (fun s2 => (s2.id, initStepRun s2.id))) s.id = some (initStepRun s.id) := by
  induction ss with
  | nil => cases hmem
  | cons hd tl ih =>
    rcases List.mem_cons.mp hmem with heq | htl
    · subst heq
      simp [alGet]
    · have hne : hd.id ≠ s.id := by
        intro hc
        have hmemid : s.id ∈ List.map (fun s => s.id) tl :=
          List.mem_map_of_mem (fun s => s.id) htl
        rw [← hc] at hmemid
        exact (List.nodup_cons.mp hnodup).1 hmemid
      simp only [List.map_cons, alGet, if_neg hne]
      exact ih htl (List.nodup_cons.mp hnodup).2

/-! ### Duplicate detection via distinct-count comparison -/

theorem length_eq_dedup_iff (l : List String) :
    l.length = l.dedup.length ↔ l.Nodup := by
  constructor
  · intro h
    have heq : l.dedup = l := List.Sublist.eq_of_length (List.dedup_sublist l) h.symm
    rw [← heq]
    exact List.nodup_dedup l
  · intro h
    rw [List.dedup_eq_self.mpr h]

/-! ### Agreement of strict formatting with tolerant substitution -/

/-- When CPython-style strict formatting succeeds, it computes exactly the
per-placeholder tolerant substitution: every placeholder name was found, so
the two scanners take identical branches. -/
theorem pyFormatCore_tolerant (ctx : Ctx) (mode : Option (List Char)) (cs : List Char) :
    ∀ s, pyFormatCore ctx mode cs = some s → substTolerantCore ctx mode cs = s := by
  induction mode, cs using pyFormatCore.induct ctx <;> intro s h <;>
    simp_all [pyFormatCore, substTolerantCore, Option.map_eq_some] <;>
    (rename_i ih
     rcases h with ⟨a, ha, hs⟩
     rw [ih a ha]
     exact hs)

/-! ### One iteration of the execution loop -/

/-- Failing iteration: when the current step is found and its execution
raises, the loop returns at once with the run marked failed, the prefixed
error message, `completed_at` set, the failing step's entry marked failed with
the raw message, and every other step entry untouched. -/
theorem executeLoop_fail_iter (wf : WorkflowDefinition) (world : Nat → HttpOutcome)
    (fuel k t : Nat) (run : WorkflowRun) (sid : String) (sd : StepDefinition) (msg : String)
    (hcur : run.current_step_id = some sid)
    (hfind : findStep wf sid = some sd)
    (hsr : (alGet run.steps sid).isSome = true)
    (hexec : executeStep sd run.context (world k) = .error msg) :
    (executeLoop wf world (fuel + 1) k t run).status = RunStatus.failed ∧
    (executeLoop wf world (fuel + 1) k t run).error =
      some ("Step " ++ sid ++ " failed: " ++ msg) ∧
    (executeLoop wf world (fuel + 1) k t run).completed_at = some (t + 2) ∧
    alGet (executeLoop wf world (fuel + 1) k t run).steps sid =
      (alGet run.steps sid).map (fun sr =>
        { sr with
          status := StepStatus.failed
          start_time := some t
          end_time := some (t + 1)
          error := some msg }) ∧
    (∀ j, j ≠ sid → alGet (executeLoop wf world (fuel + 1) k t run).steps j = alGet run.steps j) ∧
    (executeLoop wf world (fuel + 1) k t run).context = run.context ∧
    (executeLoop wf world (fuel + 1) k t run).current_step_id = run.current_step_id := by
  obtain ⟨hc1, hcur1, hcomp1, herr1, hsteps1⟩ := startStep_shape run sid t hsr
  have hsr1 : (alGet (startStep run sid t).steps sid).isSome = true := by
    rw [hsteps1, stepAdjust_get_self]
    rcases Option.isSome_iff_exists.mp hsr with ⟨sr, hw⟩
    rw [hw]
    rfl
  have hfail := failStep_shape (startStep run sid t) sid msg (t + 1) hsr1
  have hloop : executeLoop wf world (fuel + 1) k t run =
      { startStep run sid t with
        steps := stepAdjust (startStep run sid t).steps sid (fun sr =>
          { sr with
            status := StepStatus.failed
            end_time := some (t + 1)
            error := some msg })
        status := RunStatus.failed
        completed_at := some (t + 2)
        error := some ("Step " ++ sid ++ " failed: " ++ msg) } := by
    simp only [executeLoop, hcur, hfind, hc1, hexec, hfail]
  rcases Option.isSome_iff_exists.mp hsr with ⟨sr, hw⟩
  refine ⟨by rw [hloop], by rw [hloop], by rw [hloop], ?_, ?_, ?_, ?_⟩
  · rw [hloop]
    dsimp only
    rw [hsteps1, stepAdjust_comp, stepAdjust_get_self, hw]
  · intro j hj
    rw [hloop]
    dsimp only
    rw [stepAdjust_get_ne _ _ _ _ hj, hsteps1, stepAdjust_get_ne _ _ _ _ hj]
  · rw [hloop]
    exact hc1
  · rw [hloop]
    exact hcur1

/-- Successful iteration: when the current step is found and its execution
returns a context `out`, the loop continues on a run whose context is the
shallow merge of `out` into the previous context, whose chain position is the
step's declared successor, whose entry for the step is completed with `out`
recorded as its output, and whose other step entries are untouched. -/
theorem executeLoop_ok_iter (wf : WorkflowDefinition) (world : Nat → HttpOutcome)
    (fuel k t : Nat) (run : WorkflowRun) (sid : String) (sd : StepDefinition) (out : Ctx)
    (hcur : run.current_step_id = some sid)
    (hfind : findStep wf sid = some sd)
    (hsr : (alGet run.steps sid).isSome = true)
    (hexec : executeStep sd run.context (world k) = .ok out) :
    ∃ run', executeLoop wf world (fuel + 1) k t run = executeLoop wf world fuel (k + 1) (t + 2) run' ∧
      run'.context = ctxUpdate run.context out ∧
      run'.current_step_id = sd.next_step_id ∧
      alGet run'.steps sid =
        (alGet run.steps sid).map (fun sr =>
          { sr with
            status := StepStatus.completed
            start_time := some t
            end_time := some (t + 1)
            output := some out }) ∧
      (∀ j, j ≠ sid → alGet run'.steps j = alGet run.steps j) ∧
      run'.error = run.error ∧
      run'.completed_at = run.completed_at := by
  obtain ⟨hc1, hcur1, hcomp1, herr1, hsteps1⟩ := startStep_shape run sid t hsr
  have hsr1 : (alGet (startStep run sid t).steps sid).isSome = true := by
    rw [hsteps1, stepAdjust_get_self]
    rcases Option.isSome_iff_exists.mp hsr with ⟨sr, hw⟩
    rw [hw]
    rfl
  have hsr1x : (alGet ({ startStep run sid t with
      context := ctxUpdate run.context out } : WorkflowRun).steps sid).isSome = true := hsr1
  have hcomplete := completeStep_shape ({ startStep run sid t with
      context := ctxUpdate run.context out }) sid out (t + 1) hsr1x
  have hloop : executeLoop wf world (fuel + 1) k t run =
      executeLoop wf world fuel (k + 1) (t + 2)
        { completeStep ({ startStep run sid t with
            context := ctxUpdate run.context out }) sid out (t + 1) with
          current_step_id := sd.next_step_id } := by
    simp only [executeLoop, hcur, hfind, hc1, hexec]
    by_cases hout : out.isEmpty
    · rw [if_pos hout]
      have hout2 : out = [] := List.isEmpty_iff.mp hout
      subst hout2
      have hrec : ({ startStep run sid t with
          context := ctxUpdate run.context [] } : WorkflowRun) = startStep run sid t := by
        show ({ startStep run sid t with context := run.context } : WorkflowRun) = startStep run sid t
        rw [← hc1]
      rw [hrec]
    · rw [if_neg hout]
  refine ⟨_, hloop, ?_, rfl, ?_, ?_, ?_, ?_⟩
  · rw [hcomplete]
  · rw [hcomplete]
    dsimp only
    rcases Option.isSome_iff_exists.mp hsr with ⟨sr, hw⟩
    rw [hsteps1, stepAdjust_comp, stepAdjust_get_self, hw]
  · intro j hj
    rw [hcomplete]
    dsimp only
    rw [stepAdjust_get_ne _ _ _ _ hj, hsteps1, stepAdjust_get_ne _ _ _ _ hj]
  · rw [hcomplete]
    exact herr1
  · rw [hcomplete]
    exact hcomp1

/-! ### Further derived lemmas -/

theorem alGet_mem {α : Type} (l : List (String × α)) (k : String) (v : α)
    (h : alGet l k = some v) : (k, v) ∈ l := by
  induction l with
  | nil => cases h
  | cons p rest ih =>
    simp only [alGet] at h
    split at h
    · rename_i heq
      obtain ⟨a, b⟩ := p
      cases h
      simp_all
    · exact List.mem_cons_of_mem _ (ih h)

theorem renderPairs_eq_map (ctx : Ctx) (kvs : List (String × Value)) :
    renderValue.renderPairs ctx kvs = kvs.map (fun p => (p.1, renderValue ctx p.2)) := by
  induction kvs with
  | nil => rfl
  | cons p rest ih =>
    obtain ⟨k, v⟩ := p
    simp only [renderValue.renderPairs, List.map_cons, ih]

theorem renderList_eq_map (ctx : Ctx) (vs : List Value) :
    renderValue.renderList ctx vs = vs.map (fun v => renderValue ctx v) := by
  induction vs with
  | nil => rfl
  | cons v rest ih =>
    simp only [renderValue.renderList, List.map_cons, ih]

/-- The webhook connector returns the input context extended at one of the
keys `error` or `response`; every other key keeps its value. -/
theorem webhookExecute_preserves (cfg : WebhookConfig) (context : Ctx) (w : HttpOutcome)
    (key : String) (hke : key ≠ "error") (hkr : key ≠ "response") :
    alGet (webhookExecute cfg context w) key = alGet context key := by
  unfold webhookExecute
  cases w with
  | transportError msg => exact alGet_alSet_ne _ _ _ _ hke
  | response status headers text jsonBody statusMsg =>
    dsimp only
    split
    · exact alGet_alSet_ne _ _ _ _ hke
    · split
      · cases jsonBody with
        | error jmsg => exact alGet_alSet_ne _ _ _ _ hke
        | ok v => exact alGet_alSet_ne _ _ _ _ hkr
      · exact alGet_alSet_ne _ _ _ _ hkr

/-- Validation of a workflow definition never reads the steps' config maps:
replacing every config arbitrarily cannot change whether construction
succeeds. -/
theorem mkWorkflowDefinition_config_irrelevant (idv nm entry : String)
    (steps : List StepDefinition) (cf : StepDefinition → Ctx) :
    (mkWorkflowDefinition idv nm entry
        (steps.map (fun s => { s with config := cf s }))).isOk =
      (mkWorkflowDefinition idv nm entry steps).isOk := by
  simp only [mkWorkflowDefinition, List.map_map]
  have hcomp : ((fun s : StepDefinition => s.id) ∘ fun s => { s with config := cf s }) =
      (fun s : StepDefinition => s.id) := funext fun s => rfl
  rw [hcomp]
  split
  · rfl
  · split
    · rfl
    · rw [List.find?_map]
      have hcomp2 : ((fun s : StepDefinition =>
            match s.next_step_id with
            | some nx => !((steps.map (fun s2 : StepDefinition => s2.id)).contains nx)
            | none => false) ∘ fun s : StepDefinition => { s with config := cf s }) =
          (fun s : StepDefinition =>
            match s.next_step_id with
            | some nx => !((steps.map (fun s2 : StepDefinition => s2.id)).contains nx)
            | none => false) := funext fun s => rfl
      rw [hcomp2]
      cases hf : steps.find? (fun s : StepDefinition =>
          match s.next_step_id with
          | some nx => !((steps.map (fun s2 : StepDefinition => s2.id)).contains nx)
          | none => false) <;> simp [Except.isOk, Except.toBool]

theorem contains_true_of_mem {l : List String} {a : String} (h : a ∈ l) :
    l.contains a = true := by
  unfold List.contains
  exact List.elem_eq_true_of_mem h

theorem mem_of_contains_true {l : List String} {a : String} (h : l.contains a = true) :
    a ∈ l := by
  unfold List.contains at h
  exact List.mem_of_elem_eq_true h

/-- Projection fact: the conditional context update performed before
`complete_step` in the ok branch never touches the steps table. -/
theorem ite_context_steps (c : Prop) [Decidable c] (r : WorkflowRun) (x : Ctx) :
    (if c then r else { r with context := x }).steps = r.steps := by
  split <;> rfl

/-- Case analysis of a steps-table lookup after `addStep`: the entry was
already there, or it is the freshly registered pending entry. -/
theorem addStep_get_cases (r : WorkflowRun) (sid j : String) (sr' : StepRun)
    (h : alGet (addStep r sid).steps j = some sr') :
    alGet r.steps j = some sr' ∨ (j = sid ∧ sr' = initStepRun sid) := by
  unfold addStep at h
  split_ifs at h with hs
  · exact Or.inl h
  · cases hr : alGet r.steps j with
    | some w =>
      rw [alGet_append_of_some _ hr] at h
      injection h with h2
      rw [← h2]
      exact Or.inl rfl
    | none =>
      rw [alGet_append_of_none _ hr] at h
      by_cases hj : sid = j
      · rw [show alGet [(sid, initStepRun sid)] j = some (initStepRun sid) from by
          simp [alGet, hj]] at h
        cases h
        exact Or.inr ⟨hj.symm, rfl⟩
      · rw [show alGet [(sid, initStepRun sid)] j = none from by simp [alGet, hj]] at h
        cases h

/-- The steps table produced by `startStep`, with the possible registration of
a missing entry made explicit. -/
theorem startStep_steps_eq (r : WorkflowRun) (sid : String) (t : Nat) :
    (startStep r sid t).steps =
      stepAdjust (if (alGet r.steps sid).isSome then r else addStep r sid).steps sid
        (fun sr => { sr with status := StepStatus.running, start_time := some t }) := by
  unfold startStep
  dsimp only
  split_ifs <;> rfl

/-- Case analysis of a steps-table lookup after `startStep`: the entry is
untouched, or it has just been set running. -/
theorem startStep_get_cases (r : WorkflowRun) (sid : String) (t : Nat) (j : String)
    (sr' : StepRun) (h : alGet (startStep r sid t).steps j = some sr') :
    alGet r.steps j = some sr' ∨ sr'.status = StepStatus.running := by
  rw [startStep_steps_eq] at h
  by_cases hj : j = sid
  · subst hj
    rw [stepAdjust_get_self] at h
    rcases Option.map_eq_some.mp h with ⟨q, hq, hfq⟩
    right
    rw [← hfq]
  · rw [stepAdjust_get_ne _ _ _ _ hj] at h
    split_ifs at h with hs
    · exact Or.inl h
    · rcases addStep_get_cases r sid j sr' h with h2 | ⟨hj2, _⟩
      · exact Or.inl h2
      · exact absurd hj2 hj

/-- Case analysis of a steps-table lookup after `completeStep`: the entry is
untouched, or it has just been completed. -/
theorem completeStep_get_cases (r : WorkflowRun) (sid : String) (out : Ctx) (t : Nat)
    (j : String) (sr' : StepRun)
    (h : alGet (completeStep r sid out t).steps j = some sr') :
    alGet r.steps j = some sr' ∨ sr'.status = StepStatus.completed := by
  unfold completeStep at h
  split_ifs at h with hs
  · dsimp only at h
    by_cases hj : j = sid
    · subst hj
      rw [stepAdjust_get_self] at h
      rcases Option.map_eq_some.mp h with ⟨q, hq, hfq⟩
      right
      rw [← hfq]
    · rw [stepAdjust_get_ne _ _ _ _ hj] at h
      exact Or.inl h
  · exact Or.inl h

/-- Case analysis of a steps-table lookup after `failStep`: the entry is
untouched, or it has just been failed. -/
theorem failStep_get_cases (r : WorkflowRun) (sid : String) (err : String) (t : Nat)
    (j : String) (sr' : StepRun)
    (h : alGet (failStep r sid err t).steps j = some sr') :
    alGet r.steps j = some sr' ∨ sr'.status = StepStatus.failed := by
  unfold failStep at h
  split_ifs at h with hs
  · dsimp only at h
    by_cases hj : j = sid
    · subst hj
      rw [stepAdjust_get_self] at h
      rcases Option.map_eq_some.mp h with ⟨q, hq, hfq⟩
      right
      rw [← hfq]
    · rw [stepAdjust_get_ne _ _ _ _ hj] at h
      exact Or.inl h
  · exact Or.inl h

/-- Whole-execution invariant: the loop never marks any step entry skipped —
entries are only ever set running, completed or failed, and fresh entries are
registered pending. -/
theorem executeLoop_never_skipped (wf : WorkflowDefinition) (world : Nat → HttpOutcome) :
    ∀ (fuel k t : Nat) (run : WorkflowRun),
      (∀ j sr, alGet run.steps j = some sr → sr.status ≠ StepStatus.skipped) →
      ∀ j sr', alGet (executeLoop wf world fuel k t run).steps j = some sr' →
        sr'.status ≠ StepStatus.skipped := by
  intro fuel
  induction fuel with
  | zero =>
    intro k t run hinv j sr' h
    exact hinv j sr' h
  | succ fuel ih =>
    intro k t run hinv j sr' h
    simp only [executeLoop] at h
    cases hcur : run.current_step_id with
    | none =>
      rw [hcur] at h
      exact hinv j sr' h
    | some sid =>
      rw [hcur] at h
      dsimp only at h
      cases hfind : findStep wf sid with
      | none =>
        rw [hfind] at h
        exact hinv j sr' h
      | some sd =>
        rw [hfind] at h
        dsimp only at h
        cases hexec : executeStep sd (startStep run sid t).context (world k) with
        | ok out =>
          rw [hexec] at h
          dsimp only at h
          refine ih (k + 1) (t + 2) _ ?_ j sr' h
          intro j2 sr2 h2
          rcases completeStep_get_cases _ _ _ _ _ _ h2 with h4 | h4
          · rw [ite_context_steps] at h4
            rcases startStep_get_cases _ _ _ _ _ h4 with h6 | h6
            · exact hinv j2 sr2 h6
            · rw [h6]
              decide
          · rw [h4]
            decide
        | error msg =>
          rw [hexec] at h
          dsimp only at h
          rcases failStep_get_cases _ _ _ _ _ _ h with h4 | h4
          · rcases startStep_get_cases _ _ _ _ _ h4 with h6 | h6
            · exact hinv j sr' h6
            · rw [h6]
              decide
          · rw [h4]
            decide

/-- Whole-execution invariant: a step entry that is still pending in the
loop's result is the untouched pre-populated entry of the starting run — the
loop never produces a pending entry, so a pending step was never executed. -/
theorem executeLoop_pending_frozen (wf : WorkflowDefinition) (world : Nat → HttpOutcome) :
    ∀ (fuel k t : Nat) (run : WorkflowRun) (j : String) (sr' : StepRun),
      alGet (executeLoop wf world fuel k t run).steps j = some sr' →
      sr'.status = StepStatus.pending → alGet run.steps j = some sr' := by
  intro fuel
  induction fuel with
  | zero =>
    intro k t run j sr' h hp
    exact h
  | succ fuel ih =>
    intro k t run j sr' h hp
    simp only [executeLoop] at h
    cases hcur : run.current_step_id with
    | none =>
      rw [hcur] at h
      exact h
    | some sid =>
      rw [hcur] at h
      dsimp only at h
      cases hfind : findStep wf sid with
      | none =>
        rw [hfind] at h
        exact h
      | some sd =>
        rw [hfind] at h
        dsimp only at h
        cases hexec : executeStep sd (startStep run sid t).context (world k) with
        | ok out =>
          rw [hexec] at h
          dsimp only at h
          have h2 := ih _ _ _ _ _ h hp
          rcases completeStep_get_cases _ _ _ _ _ _ h2 with h4 | h4
          · rw [ite_context_steps] at h4
            rcases startStep_get_cases _ _ _ _ _ h4 with h6 | h6
            · exact h6
            · rw [hp] at h6
              cases h6
          · rw [hp] at h4
            cases h4
        | error msg =>
          rw [hexec] at h
          dsimp only at h
          rcases failStep_get_cases _ _ _ _ _ _ h with h4 | h4
          · rcases startStep_get_cases _ _ _ _ _ h4 with h6 | h6
            · exact h6
            · rw [hp] at h6
              cases h6
          · rw [hp] at h4
            cases h4

theorem alGet_append_singleton_isSome {α : Type} (s : List (String × α)) (k : String) (v : α)
    (h : alGet s k = none) : (alGet (s ++ [(k, v)]) k).isSome = true := by
  rw [alGet_append_of_none _ h]
  simp [alGet]

theorem storeCreate_fresh {E : Type} (mn : String) (idOf : E → String) (s : Store E) (e : E)
    (h1 : idOf e ≠ "") (h2 : alGet s (idOf e) = none) :
    storeCreate mn idOf s e = (s ++ [(idOf e, e)], .ok e) := by
  unfold storeCreate
  rw [if_neg h1, if_neg (by rw [h2]; simp)]

theorem storeUpdate_hit {E : Type} (mn : String) (idOf : E → String) (s : Store E) (e : E)
    (h1 : idOf e ≠ "") (h2 : (alGet s (idOf e)).isSome = true) :
    storeUpdate mn idOf s e = (alSet s (idOf e) e, .ok e) := by
  unfold storeUpdate
  rw [if_neg h1, if_pos h2]

/-! ### Claim theorems -/

/-- C1: for every stored workflow definition and every initial context,
`start_workflow` returns a Run whose status is running, whose
`current_step_id` equals the definition's `entry_point`, whose context equals
the given initial context (empty map when none is given), whose `started_at`
is set, and whose steps mapping contains exactly one pending Step Run per
step of the definition regardless of whether that step is ever reached; when
no definition with the given id exists, it fails with `NotFound` and creates
no run. -/
theorem startWorkflow_spec (wfStore : Store WorkflowDefinition) (runStore : Store WorkflowRun)
    (wid : String) (context : Option Ctx) (rid : String) (now : Nat) :
    (alGet wfStore wid = none →
      startWorkflow wfStore runStore wid context rid now =
        (runStore, .error (.notFound ("WorkflowDefinition with ID " ++ wid ++ " not found.")))) ∧
    (∀ wf, alGet wfStore wid = some wf →
      (wf.steps.map (fun s => s.id)).Nodup →
      rid ≠ "" →
      alGet runStore rid = none →
      ∃ run store2, startWorkflow wfStore runStore wid context rid now = (store2, .ok run) ∧
        run.status = RunStatus.running ∧
        run.current_step_id = some wf.entry_point ∧
        run.context = context.getD [] ∧
        run.started_at.isSome = true ∧
        run.steps = wf.steps.map (fun s => (s.id, initStepRun s.id)) ∧
        (∀ s ∈ wf.steps, alGet run.steps s.id = some (initStepRun s.id)) ∧
        alGet store2 rid = some run) := by
  constructor
  · intro hnone
    unfold startWorkflow
    rw [show storeGet "WorkflowDefinition" wfStore wid =
      (Except.error (PyErr.notFound ("WorkflowDefinition with ID " ++ wid ++ " not found."))
        : Except PyErr WorkflowDefinition) from by
      unfold storeGet
      rw [hnone]
      rfl]
  · intro wf hwf hnodup hrid hfresh
    unfold startWorkflow
    rw [show storeGet "WorkflowDefinition" wfStore wid = .ok wf from by
      unfold storeGet; rw [hwf]]
    dsimp only
    rw [storeCreate_fresh "WorkflowRun" (fun r => r.run_id) runStore _ hrid hfresh]
    dsimp only
    rw [foldl_addStep wf.steps
      { run_id := rid, workflow_id := wid, status := RunStatus.running, created_at := now,
        started_at := some now, completed_at := none, context := context.getD [],
        steps := [], current_step_id := some wf.entry_point, error := none }
      (fun s _ => rfl) hnodup]
    dsimp only
    rw [storeUpdate_hit "WorkflowRun" (fun r : WorkflowRun => r.run_id) _ _ hrid
      (alGet_append_singleton_isSome runStore rid _ hfresh)]
    refine ⟨_, _, rfl, rfl, rfl, rfl, rfl, by simp, ?_, ?_⟩
    · intro s hs
      dsimp only
      rw [List.nil_append]
      exact alGet_map_of_mem wf.steps s hs hnodup
    · rw [alGet_alSet_self]

/-- C10: for every run id, the engine's run-status lookup (`get_run_status`)
and run-listing (`list_workflow_runs`) operations always fail: they read an
attribute named `storage` that the engine never defines (its constructor sets
only `workflow_storage` and `run_storage`), so neither operation can ever
return a run. -/
theorem engine_lookup_always_fails (ws : Store WorkflowDefinition) (rs : Store WorkflowRun)
    (run_id workflow_id : String) :
    engineGetRunStatus (engineInit ws rs) run_id =
      .error (.attributeErr "WorkflowEngine object has no attribute storage") ∧
    engineListWorkflowRuns (engineInit ws rs) workflow_id =
      .error (.attributeErr "WorkflowEngine object has no attribute storage") :=
  ⟨rfl, rfl⟩

/-- C7: for every entity and every id, create followed by get of that
entity's id returns an equivalent record; a second create with the same id
fails with `AlreadyExists` and leaves the stored record unchanged; and get or
update of an id with no stored record fails with `NotFound`. -/
theorem storage_roundtrip_spec {E : Type} (modelName : String) (idOf : E → String)
    (s : Store E) (e : E) (id2 : String) :
    (idOf e ≠ "" → alGet s (idOf e) = none →
      storeCreate modelName idOf s e = (s ++ [(idOf e, e)], .ok e) ∧
      storeGet modelName (s ++ [(idOf e, e)]) (idOf e) = .ok e) ∧
    (∀ old, idOf e ≠ "" → alGet s (idOf e) = some old →
      storeCreate modelName idOf s e =
        (s, .error (.alreadyExists (modelName ++ " with ID " ++ idOf e ++ " already exists."))) ∧
      storeGet modelName s (idOf e) = .ok old) ∧
    (alGet s id2 = none →
      storeGet modelName s id2 =
        .error (.notFound (modelName ++ " with ID " ++ id2 ++ " not found.")) ∧
      (∀ e2, idOf e2 = id2 → id2 ≠ "" →
        storeUpdate modelName idOf s e2 =
          (s, .error (.notFound (modelName ++ " with ID " ++ id2 ++ " not found."))))) := by
  refine ⟨?_, ?_, ?_⟩
  · intro hne hnone
    constructor
    · unfold storeCreate
      rw [if_neg hne, if_neg (by rw [hnone]; simp)]
    · unfold storeGet
      rw [alGet_append_of_none _ hnone]
      simp [alGet]
  · intro old hne hsome
    constructor
    · unfold storeCreate
      rw [if_neg hne, if_pos (by rw [hsome]; rfl)]
    · unfold storeGet
      rw [hsome]
  · intro hnone
    constructor
    · unfold storeGet
      rw [hnone]
    · intro e2 hid hne
      unfold storeUpdate
      rw [hid, if_neg hne, if_neg (by rw [hnone]; simp)]

/-- C2: for every run in which the execution of some step raises an error
(from the connector or from config validation), the final persisted run has
status failed, `completed_at` set, and run error equal to
`Step <id> failed: <message>`; that Step Run is failed with `end_time` and the
error text; every other step keeps its pre-populated entry — a pending step
stays pending and is never executed — and no step is ever marked skipped.
The last two conjuncts state the skip-freedom and pending-untouched
guarantees for whole executions of any length, not merely for the failing
iteration: across any run of the loop, no entry is ever set skipped, and an
entry still pending at the end is the untouched pre-populated one. -/
theorem step_failure_short_circuits (wf : WorkflowDefinition) (world : Nat → HttpOutcome)
    (fuel k t : Nat) (run : WorkflowRun) (sid : String) (sd : StepDefinition) (msg : String)
    (hcur : run.current_step_id = some sid)
    (hfind : findStep wf sid = some sd)
    (hsr : (alGet run.steps sid).isSome = true)
    (hexec : executeStep sd run.context (world k) = .error msg)
    (hnoskip : ∀ p ∈ run.steps, p.2.status ≠ StepStatus.skipped) :
    (executeLoop wf world (fuel + 1) k t run).status = RunStatus.failed ∧
    (executeLoop wf world (fuel + 1) k t run).error =
      some ("Step " ++ sid ++ " failed: " ++ msg) ∧
    (executeLoop wf world (fuel + 1) k t run).completed_at.isSome = true ∧
    (∃ sr, alGet (executeLoop wf world (fuel + 1) k t run).steps sid = some sr ∧
      sr.status = StepStatus.failed ∧ sr.error = some msg ∧ sr.end_time.isSome = true) ∧
    (∀ j, j ≠ sid →
      alGet (executeLoop wf world (fuel + 1) k t run).steps j = alGet run.steps j) ∧
    (∀ j sr, j ≠ sid → alGet run.steps j = some sr → sr.status = StepStatus.pending →
      alGet (executeLoop wf world (fuel + 1) k t run).steps j = some sr) ∧
    (∀ j sr, alGet (executeLoop wf world (fuel + 1) k t run).steps j = some sr →
      sr.status ≠ StepStatus.skipped) ∧
    (∀ fuel2 k2 t2 run2,
      (∀ j sr, alGet run2.steps j = some sr → sr.status ≠ StepStatus.skipped) →
      ∀ j sr, alGet (executeLoop wf world fuel2 k2 t2 run2).steps j = some sr →
        sr.status ≠ StepStatus.skipped) ∧
    (∀ fuel2 k2 t2 run2 j sr,
      alGet (executeLoop wf world fuel2 k2 t2 run2).steps j = some sr →
      sr.status = StepStatus.pending → alGet run2.steps j = some sr) := by
  obtain ⟨h1, h2, h3, h4, h5, h6, h7⟩ :=
    executeLoop_fail_iter wf world fuel k t run sid sd msg hcur hfind hsr hexec
  rcases Option.isSome_iff_exists.mp hsr with ⟨sr0, hw0⟩
  refine ⟨h1, h2, by rw [h3]; rfl, ?_, h5, ?_, ?_,
    fun fuel2 k2 t2 run2 hinv => executeLoop_never_skipped wf world fuel2 k2 t2 run2 hinv,
    fun fuel2 k2 t2 run2 j sr hget hp =>
      executeLoop_pending_frozen wf world fuel2 k2 t2 run2 j sr hget hp⟩
  · refine ⟨{ sr0 with status := StepStatus.failed, start_time := some t, end_time := some (t + 1), error := some msg }, ?_, rfl, rfl, rfl⟩
    rw [h4, hw0]
    rfl
  · intro j sr hj hjget hpend
    rw [h5 j hj, hjget]
  · intro j sr hget
    by_cases hj : j = sid
    · subst hj
      rw [h4, hw0] at hget
      cases hget
      intro hc
      cases hc
    · rw [h5 j hj] at hget
      exact hnoskip (j, sr) (alGet_mem _ _ _ hget)

/-- C3: for every context and webhook configuration, a failing HTTP call
(network error, non-2xx status, JSON decoding error) does not raise: the
connector returns the input context with an added `error` key holding the
failure description, so the enclosing Step Run is marked completed (not
failed) and the run advances to the step's successor; on success it instead
returns the input context with an added `response` key carrying status code,
headers, and the parsed or raw body. -/
theorem webhook_failure_swallowed (cfg : WebhookConfig) (context : Ctx) :
    (∀ msg, webhookExecute cfg context (.transportError msg) =
      alSet context "error" (Value.str msg)) ∧
    (∀ status headers text jsonBody statusMsg, ¬ (200 ≤ status ∧ status ≤ 299) →
      webhookExecute cfg context (.response status headers text jsonBody statusMsg) =
        alSet context "error" (Value.str statusMsg)) ∧
    (∀ status headers text jmsg statusMsg, 200 ≤ status → status ≤ 299 →
      containsJsonTag ((hdrGet headers "content-type").getD "") = true →
      webhookExecute cfg context (.response status headers text (.error jmsg) statusMsg) =
        alSet context "error" (Value.str jmsg)) ∧
    (∀ status headers text v statusMsg, 200 ≤ status → status ≤ 299 →
      containsJsonTag ((hdrGet headers "content-type").getD "") = true →
      webhookExecute cfg context (.response status headers text (.ok v) statusMsg) =
        alSet context "response" (mkResponseValue status headers v)) ∧
    (∀ status headers text jsonBody statusMsg, 200 ≤ status → status ≤ 299 →
      containsJsonTag ((hdrGet headers "content-type").getD "") = false →
      webhookExecute cfg context (.response status headers text jsonBody statusMsg) =
        alSet context "response" (mkResponseValue status headers (Value.str text))) ∧
    (∀ wf world fuel k t run sid sd,
      run.current_step_id = some sid →
      findStep wf sid = some sd →
      (alGet run.steps sid).isSome = true →
      sd.type = "webhook" →
      webhookConfigParse sd.config = .ok cfg →
      ∃ out run', executeStep sd run.context (world k) = .ok out ∧
        executeLoop wf world (fuel + 1) k t run = executeLoop wf world fuel (k + 1) (t + 2) run' ∧
        (∃ sr, alGet run'.steps sid = some sr ∧ sr.status = StepStatus.completed ∧
          sr.output = some out) ∧
        run'.current_step_id = sd.next_step_id) := by
  refine ⟨fun msg => rfl, ?_, ?_, ?_, ?_, ?_⟩
  · intro status headers text jsonBody statusMsg hlt
    unfold webhookExecute
    dsimp only
    rw [if_pos (by simp; omega)]
  · intro status headers text jmsg statusMsg h1 h2 hct
    unfold webhookExecute
    dsimp only
    rw [if_neg (by simp [h1, h2]), if_pos hct]
  · intro status headers text v statusMsg h1 h2 hct
    unfold webhookExecute
    dsimp only
    rw [if_neg (by simp [h1, h2]), if_pos hct]
  · intro status headers text jsonBody statusMsg h1 h2 hct
    unfold webhookExecute
    dsimp only
    rw [if_neg (by simp [h1, h2]), if_neg (by simp [hct])]
  · intro wf world fuel k t run sid sd hcur hfind hsr htype hparse
    have hexec : executeStep sd run.context (world k) =
        .ok (webhookExecute cfg run.context (world k)) := by
      unfold executeStep
      rw [show connectorLookup sd.type = some ConnectorKind.webhook from by
        rw [htype]; rfl]
      rw [hparse]
    obtain ⟨run', hloop, hctx, hcur2, hself, hne, herr, hcomp⟩ :=
      executeLoop_ok_iter wf world fuel k t run sid sd _ hcur hfind hsr hexec
    rcases Option.isSome_iff_exists.mp hsr with ⟨sr0, hw0⟩
    refine ⟨_, run', hexec, hloop, ⟨_, by rw [hself, hw0]; rfl, rfl, rfl⟩, hcur2⟩

/-- C5 (counterexample): the claim that a Step Run's recorded `output` equals
the context delta produced by the step fails on the code.  Executing the
single webhook step of `wfHook` on a run whose context holds the key `k`
records as `output` the whole returned context — the input pair `k` together
with the added `response` — and not merely the added `response` pair, which is
the delta the claim prescribes. -/
theorem step_output_not_delta_cex :
    (alGet runHookFinal.steps "h1").map (fun sr => sr.output) =
      some (some [("k", Value.str "v"),
        ("response", mkResponseValue 200 [] (Value.str "ok"))]) ∧
    ([("k", Value.str "v"), ("response", mkResponseValue 200 [] (Value.str "ok"))] : Ctx) ≠
      [("response", mkResponseValue 200 [] (Value.str "ok"))] := by
  constructor
  · decide
  · decide

/-- C5 (amended): for every successfully executed step, the Step Run's
recorded `output` equals the full context mapping returned by the connector —
the input context together with the keys it added or changed, not merely the
delta — and the engine merges this returned mapping into the run's context by
shallow key overwrite before advancing to the step's declared
`next_step_id`.  For a webhook step the returned mapping indeed carries every
key of the input context unchanged apart from the added `error` or `response`
entry. -/
theorem step_output_records_returned_context (wf : WorkflowDefinition)
    (world : Nat → HttpOutcome) (fuel k t : Nat) (run : WorkflowRun)
    (sid : String) (sd : StepDefinition) (out : Ctx)
    (hcur : run.current_step_id = some sid)
    (hfind : findStep wf sid = some sd)
    (hsr : (alGet run.steps sid).isSome = true)
    (hexec : executeStep sd run.context (world k) = .ok out) :
    ∃ run', executeLoop wf world (fuel + 1) k t run = executeLoop wf world fuel (k + 1) (t + 2) run' ∧
      (∃ sr, alGet run'.steps sid = some sr ∧ sr.status = StepStatus.completed ∧
        sr.output = some out) ∧
      run'.context = ctxUpdate run.context out ∧
      run'.current_step_id = sd.next_step_id ∧
      (∀ cfg w key, key ≠ "error" → key ≠ "response" →
        alGet (webhookExecute cfg run.context w) key = alGet run.context key) := by
  obtain ⟨run', hloop, hctx, hcur2, hself, hne, herr, hcomp⟩ :=
    executeLoop_ok_iter wf world fuel k t run sid sd out hcur hfind hsr hexec
  rcases Option.isSome_iff_exists.mp hsr with ⟨sr0, hw0⟩
  refine ⟨run', hloop, ⟨_, by rw [hself, hw0]; rfl, rfl, rfl⟩, hctx, hcur2, ?_⟩
  intro cfg w key hke hkr
  exact webhookExecute_preserves cfg run.context w key hke hkr

/-- C9: for every step whose type tag is not in the connector dispatch table,
executing that step fails with the unsupported-step-type error; and for every
step whose type is known but whose raw config map does not parse against the
connector's schema, the parse error surfaces as an execution failure of that
step during the run — failing the run per the short-circuit rule — and never
as a failure at workflow construction time, since definition validation never
reads the config maps. -/
theorem dispatch_and_lazy_config_validation :
    (∀ (step : StepDefinition) (ctx : Ctx) (w : HttpOutcome),
      connectorLookup step.type = none →
      executeStep step ctx w = .error ("Unsupported step type: " ++ step.type)) ∧
    (∀ (sd : StepDefinition) (ctx : Ctx) (w : HttpOutcome) (e : PyErr),
      sd.type = "delay" → delayConfigParse sd.config = .error e →
      executeStep sd ctx w = .error e.msg) ∧
    (∀ (sd : StepDefinition) (ctx : Ctx) (w : HttpOutcome) (e : PyErr),
      sd.type = "webhook" → webhookConfigParse sd.config = .error e →
      executeStep sd ctx w = .error e.msg) ∧
    (∀ (wf : WorkflowDefinition) (world : Nat → HttpOutcome) (fuel k t : Nat)
      (run : WorkflowRun) (sid : String) (sd : StepDefinition) (msg : String),
      run.current_step_id = some sid →
      findStep wf sid = some sd →
      (alGet run.steps sid).isSome = true →
      executeStep sd run.context (world k) = .error msg →
      (executeLoop wf world (fuel + 1) k t run).status = RunStatus.failed ∧
      (executeLoop wf world (fuel + 1) k t run).error =
        some ("Step " ++ sid ++ " failed: " ++ msg) ∧
      (∃ sr, alGet (executeLoop wf world (fuel + 1) k t run).steps sid = some sr ∧
        sr.status = StepStatus.failed ∧ sr.error = some msg)) ∧
    (∀ (idv nm entry : String) (steps : List StepDefinition) (cf : StepDefinition → Ctx),
      (mkWorkflowDefinition idv nm entry
          (steps.map (fun s => { s with config := cf s }))).isOk =
        (mkWorkflowDefinition idv nm entry steps).isOk) := by
  refine ⟨?_, ?_, ?_, ?_, ?_⟩
  · intro step ctx w hnone
    unfold executeStep
    rw [hnone]
  · intro sd ctx w e htype hparse
    unfold executeStep
    rw [show connectorLookup sd.type = some ConnectorKind.delay from by rw [htype]; rfl, hparse]
  · intro sd ctx w e htype hparse
    unfold executeStep
    rw [show connectorLookup sd.type = some ConnectorKind.webhook from by rw [htype]; rfl, hparse]
  · intro wf world fuel k t run sid sd msg hcur hfind hsr hexec
    obtain ⟨h1, h2, h3, h4, h5, h6, h7⟩ :=
      executeLoop_fail_iter wf world fuel k t run sid sd msg hcur hfind hsr hexec
    rcases Option.isSome_iff_exists.mp hsr with ⟨sr0, hw0⟩
    refine ⟨h1, h2, { sr0 with status := StepStatus.failed, start_time := some t, end_time := some (t + 1), error := some msg }, ?_, rfl, rfl⟩
    rw [h4, hw0]
    rfl
  · exact mkWorkflowDefinition_config_irrelevant

/-- C4: workflow definition construction fails with `ValidationError` exactly
on duplicate step ids, an `entry_point` outside the step ids, or a present
`next_step_id` outside the step ids; it succeeds on every well-formed chain;
and no validation of a step's config against its connector's schema happens at
construction. -/
theorem workflow_validation_spec (idv nm entry : String) (steps : List StepDefinition) :
    ((mkWorkflowDefinition idv nm entry steps).isOk = true ↔
      ((steps.map (fun s => s.id)).Nodup ∧
       entry ∈ steps.map (fun s => s.id) ∧
       ∀ s ∈ steps, ∀ nx, s.next_step_id = some nx → nx ∈ steps.map (fun s => s.id))) ∧
    (∀ e, mkWorkflowDefinition idv nm entry steps = .error e →
      ∃ m, e = PyErr.validationErr m) ∧
    (∀ cf : StepDefinition → Ctx,
      (mkWorkflowDefinition idv nm entry
          (steps.map (fun s => { s with config := cf s }))).isOk =
        (mkWorkflowDefinition idv nm entry steps).isOk) := by
  refine ⟨?_, ?_, fun cf => mkWorkflowDefinition_config_irrelevant idv nm entry steps cf⟩
  · unfold mkWorkflowDefinition
    by_cases hdup : (steps.map (fun s => s.id)).length = (steps.map (fun s => s.id)).dedup.length
    · rw [if_neg (by simpa using hdup)]
      by_cases hentry : entry ∈ steps.map (fun s => s.id)
      · rw [if_neg (by simpa using hentry)]
        cases hf : steps.find? (fun s =>
            match s.next_step_id with
            | some nx => !((steps.map (fun s => s.id)).contains nx)
            | none => false) with
        | some s =>
          simp only [Except.isOk, Except.toBool]
          constructor
          · intro h
            cases h
          · rintro ⟨hnodup, hent, hnext⟩
            have hps := List.find?_some hf
            have hmem := List.mem_of_find?_eq_some hf
            rcases hnx : s.next_step_id with _ | nx
            · rw [hnx] at hps
              cases hps
            · rw [hnx] at hps
              have hin := hnext s hmem nx hnx
              dsimp only at hps
              rw [contains_true_of_mem hin] at hps
              exact hps
        | none =>
          simp only [Except.isOk, Except.toBool]
          refine ⟨fun _ => ⟨(length_eq_dedup_iff _).mp hdup, hentry, ?_⟩, fun _ => trivial⟩
          intro s hs nx hnx
          have hps := List.find?_eq_none.mp hf s hs
          rw [hnx] at hps
          dsimp only at hps
          refine mem_of_contains_true ?_
          by_cases hc : (steps.map (fun s => s.id)).contains nx = true
          · exact hc
          · rw [Bool.not_eq_true] at hc
            rw [hc] at hps
            exact absurd rfl hps
      · rw [if_pos (by simpa using hentry)]
        simp only [Except.isOk, Except.toBool]
        constructor
        · intro h
          cases h
        · rintro ⟨_, hent, _⟩
          exact absurd hent hentry
    · rw [if_pos (by simpa using hdup)]
      simp only [Except.isOk, Except.toBool]
      constructor
      · intro h
        cases h
      · rintro ⟨hnodup, _, _⟩
        exact absurd ((length_eq_dedup_iff _).mpr hnodup) hdup
  · intro e he
    unfold mkWorkflowDefinition at he
    dsimp only at he
    split at he
    · cases he
      exact ⟨_, rfl⟩
    · split at he
      · cases he
        exact ⟨_, rfl⟩
      · split at he
        · cases he
          exact ⟨_, rfl⟩
        · cases he

/-- C6 (counterexample): the claim that every placeholder whose name is a key
of the context is replaced while missing names are left unresolved fails on
the code.  Rendering the template holding both a present name `a` and a
missing name `b` leaves the whole string untouched — including the resolvable
placeholder — whereas the claimed per-placeholder substitution (the spec-side
`substTolerant`) substitutes `a`. -/
theorem render_mixed_placeholder_cex :
    renderValue [("a", Value.str "x")] (Value.str "\x7ba\x7d \x7bb\x7d") =
      Value.str "\x7ba\x7d \x7bb\x7d" ∧
    substTolerant "\x7ba\x7d \x7bb\x7d" [("a", Value.str "x")] = "x \x7bb\x7d" ∧
    ("\x7ba\x7d \x7bb\x7d" : String) ≠ "x \x7bb\x7d" := by
  refine ⟨by decide, by decide, by decide⟩

/-- C6 (amended): interpolation of a string field is all-or-nothing per
string: when strict formatting succeeds — every placeholder name present and
the template well-formed — the result is exactly the per-placeholder tolerant
substitution; otherwise the entire string is returned unchanged, including
placeholders whose names are present.  Non-string values keep their structure,
with nested strings interpolated recursively, and headers are rendered
entry-wise with non-string values passed through `str`. -/
theorem render_interpolation_spec (s : String) (ctx : Ctx) :
    ((pyFormat s ctx).isSome = true → renderStr s ctx = substTolerant s ctx) ∧
    ((pyFormat s ctx).isSome = false → renderStr s ctx = s) ∧
    (∀ kvs, renderValue ctx (Value.dict kvs) =
      Value.dict (kvs.map (fun p => (p.1, renderValue ctx p.2)))) ∧
    (∀ vs, renderValue ctx (Value.list vs) = Value.list (vs.map (fun v => renderValue ctx v))) ∧
    (∀ s2, renderValue ctx (Value.str s2) = Value.str (renderStr s2 ctx)) ∧
    (∀ headers, renderHeaders headers ctx = headers.map (fun p =>
      match p.2 with
      | Value.str s2 => (p.1, renderStr s2 ctx)
      | v => (p.1, pyStr v))) := by
  refine ⟨?_, ?_, ?_, ?_, fun s2 => rfl, fun headers => rfl⟩
  · intro hsome
    rcases Option.isSome_iff_exists.mp hsome with ⟨r, hr⟩
    unfold renderStr substTolerant
    unfold pyFormat at hr
    rw [show pyFormat s ctx = some r from hr]
    exact (pyFormatCore_tolerant ctx none s.data r hr).symm
  · intro hnone
    have hn : pyFormat s ctx = none := by
      cases h : pyFormat s ctx
      · rfl
      · rw [h] at hnone
        cases hnone
    unfold renderStr
    rw [hn]
  · intro kvs
    show Value.dict (renderValue.renderPairs ctx kvs) = _
    rw [renderPairs_eq_map]
  · intro vs
    show Value.list (renderValue.renderList ctx vs) = _
    rw [renderList_eq_map]

theorem delaySeconds_isOk_iff (raw : Ctx) (t : String) :
    (delayConfigParse.delaySeconds raw t).isOk = true ↔
      (∃ v n, alGet raw "seconds" = some v ∧ pyLaxInt v = some n ∧ (0 : Int) < n) := by
  unfold delayConfigParse.delaySeconds
  cases hsec : alGet raw "seconds" with
  | none => simp [Except.isOk, Except.toBool]
  | some v =>
    dsimp only
    cases hlax : pyLaxInt v with
    | none => simp [hlax, Except.isOk, Except.toBool]
    | some n =>
      dsimp only
      by_cases hn : 0 < n
      · rw [if_pos hn]
        simp [hlax, hn, Except.isOk, Except.toBool]
      · rw [if_neg hn]
        simp [hlax, hn, Except.isOk, Except.toBool]

/-- Characterization of the lax `int` coercion: it succeeds exactly on
integer values and on strings that spell an integer. -/
theorem pyLaxInt_characterization (v : Value) (n : Int) :
    pyLaxInt v = some n ↔
      (v = Value.int n ∨ ∃ s2, v = Value.str s2 ∧ pyIntOfString s2 = some n) := by
  cases v <;> simp [pyLaxInt]

/-- C8 (counterexample): the claim that the Delay configuration is accepted
exactly when it provides the single field `seconds` as a strictly positive
integer fails on the code: the schema inherits an optional `type` field, so a
map carrying both `seconds` and `type` parses successfully although it does
not consist of the single field `seconds`. -/
theorem delay_config_extra_type_cex :
    (delayConfigParse rawDelayWithType).isOk = true ∧
    ¬ specDelaySingleField rawDelayWithType := by
  constructor
  · rfl
  · rintro ⟨n, h, _⟩
    have hlen := congrArg List.length h
    simp [rawDelayWithType] at hlen

/-- C8 (amended): the Delay connector's execute returns a context equal to its
input (identity on the context) and has no other failure mode; its
configuration is accepted exactly when it provides `seconds` holding a
strictly positive integer — an integer value, or by pydantic's lax coercion a
string spelling one — possibly together with the inherited `type` field as a
string, and no other key. -/
theorem delay_connector_spec (cfg : DelayConfig) (ctx : Ctx) (raw : Ctx) :
    delayExecute cfg ctx = ctx ∧
    ((delayConfigParse raw).isOk = true ↔
      ((∀ p ∈ raw, p.1 = "seconds" ∨ p.1 = "type") ∧
       (∀ v, alGet raw "type" = some v → ∃ s2, v = Value.str s2) ∧
       (∃ v n, alGet raw "seconds" = some v ∧ pyLaxInt v = some n ∧ (0 : Int) < n))) ∧
    (∀ v (n : Int), pyLaxInt v = some n ↔
      (v = Value.int n ∨ ∃ s2, v = Value.str s2 ∧ pyIntOfString s2 = some n)) := by
  refine ⟨rfl, ?_, fun v n => pyLaxInt_characterization v n⟩
  unfold delayConfigParse
  cases hfind : raw.find? (fun p => !(p.1 == "type" || p.1 == "seconds")) with
  | some p =>
    dsimp only
    constructor
    · intro h
      simp [Except.isOk, Except.toBool] at h
    · rintro ⟨hkeys, _, _⟩
      have hps := List.find?_some hfind
      have hmem := List.mem_of_find?_eq_some hfind
      rcases hkeys p hmem with h1 | h1 <;> rw [h1] at hps <;> simp at hps
  | none =>
    have hkeys : ∀ p ∈ raw, p.1 = "seconds" ∨ p.1 = "type" := by
      intro p hp
      have hps := List.find?_eq_none.mp hfind p hp
      simp at hps
      tauto
    dsimp only
    cases htype : alGet raw "type" with
    | none =>
      rw [delaySeconds_isOk_iff]
      constructor
      · intro hsec
        refine ⟨hkeys, ?_, hsec⟩
        intro v hv
        cases hv
      · rintro ⟨_, _, hsec⟩
        exact hsec
    | some v =>
      cases v with
      | str t =>
        rw [delaySeconds_isOk_iff]
        constructor
        · intro hsec
          exact ⟨hkeys, fun v2 hv2 => by cases hv2; exact ⟨t, rfl⟩, hsec⟩
        · rintro ⟨_, _, hsec⟩
          exact hsec
      | null =>
        constructor
        · intro h
          simp [Except.isOk, Except.toBool] at h
        · rintro ⟨_, htypeok, _⟩
          rcases htypeok _ rfl with ⟨s2, hs2⟩
          cases hs2
      | bool b =>
        constructor
        · intro h
          simp [Except.isOk, Except.toBool] at h
        · rintro ⟨_, htypeok, _⟩
          rcases htypeok _ rfl with ⟨s2, hs2⟩
          cases hs2
      | int n =>
        constructor
        · intro h
          simp [Except.isOk, Except.toBool] at h
        · rintro ⟨_, htypeok, _⟩
          rcases htypeok _ rfl with ⟨s2, hs2⟩
          cases hs2
      | list vs =>
        constructor
        · intro h
          simp [Except.isOk, Except.toBool] at h
        · rintro ⟨_, htypeok, _⟩
          rcases htypeok _ rfl with ⟨s2, hs2⟩
          cases hs2
      | dict kvs =>
        constructor
        · intro h
          simp [Except.isOk, Except.toBool] at h
        · rintro ⟨_, htypeok, _⟩
          rcases htypeok _ rfl with ⟨s2, hs2⟩
          cases hs2

/-! ### Witnesses -/

/-- Witness for C1 at a concrete store holding `wfChain`. -/
theorem startWorkflow_spec_witness :
    ∃ run store2,
      startWorkflow [("w1", wfChain)] [] "w1" (some [("k", Value.str "v")]) "r1" 0 =
        (store2, .ok run) ∧
      run.status = RunStatus.running ∧
      run.current_step_id = some wfChain.entry_point ∧
      run.context = (some [("k", Value.str "v")] : Option Ctx).getD [] ∧
      run.started_at.isSome = true ∧
      run.steps = wfChain.steps.map (fun s => (s.id, initStepRun s.id)) ∧
      (∀ s ∈ wfChain.steps, alGet run.steps s.id = some (initStepRun s.id)) ∧
      alGet store2 "r1" = some run :=
  (startWorkflow_spec [("w1", wfChain)] [] "w1" (some [("k", Value.str "v")]) "r1" 0).2
    wfChain rfl (by decide) (by decide) rfl

/-- Witness for C2 at the concrete run of `wfBadDelay` whose first step's
config is rejected by the delay schema. -/
theorem step_failure_short_circuits_witness :
    (executeLoop wfBadDelay worldDown 2 0 1 runBadDelay).status = RunStatus.failed ∧
    (executeLoop wfBadDelay worldDown 2 0 1 runBadDelay).error =
      some ("Step " ++ "a" ++ " failed: " ++ "Input should be greater than 0: seconds") ∧
    (executeLoop wfBadDelay worldDown 2 0 1 runBadDelay).completed_at.isSome = true ∧
    (∃ sr, alGet (executeLoop wfBadDelay worldDown 2 0 1 runBadDelay).steps "a" = some sr ∧
      sr.status = StepStatus.failed ∧
      sr.error = some "Input should be greater than 0: seconds" ∧
      sr.end_time.isSome = true) ∧
    (∀ j, j ≠ "a" →
      alGet (executeLoop wfBadDelay worldDown 2 0 1 runBadDelay).steps j =
        alGet runBadDelay.steps j) ∧
    (∀ j sr, j ≠ "a" → alGet runBadDelay.steps j = some sr → sr.status = StepStatus.pending →
      alGet (executeLoop wfBadDelay worldDown 2 0 1 runBadDelay).steps j = some sr) ∧
    (∀ j sr, alGet (executeLoop wfBadDelay worldDown 2 0 1 runBadDelay).steps j = some sr →
      sr.status ≠ StepStatus.skipped) ∧
    (∀ j sr, alGet (executeLoop wfBadDelay worldDown 2 0 1 runBadDelay).steps j = some sr →
      sr.status ≠ StepStatus.skipped) ∧
    (∀ j sr, alGet (executeLoop wfBadDelay worldDown 2 0 1 runBadDelay).steps j = some sr →
      sr.status = StepStatus.pending → alGet runBadDelay.steps j = some sr) := by
  have hmain := step_failure_short_circuits wfBadDelay worldDown 1 0 1 runBadDelay "a" sdBad
    "Input should be greater than 0: seconds" rfl rfl rfl rfl (by decide)
  have hinit : ∀ j sr, alGet runBadDelay.steps j = some sr →
      sr.status ≠ StepStatus.skipped := by
    intro j sr h
    have hmem := alGet_mem _ _ _ h
    simp only [runBadDelay, List.mem_cons, List.not_mem_nil, or_false] at hmem
    rcases hmem with h1 | h1 <;> (injection h1 with ha hb; rw [hb]; decide)
  exact ⟨hmain.1, hmain.2.1, hmain.2.2.1, hmain.2.2.2.1, hmain.2.2.2.2.1,
    hmain.2.2.2.2.2.1, hmain.2.2.2.2.2.2.1,
    hmain.2.2.2.2.2.2.2.1 2 0 1 runBadDelay hinit,
    fun j sr h hp => hmain.2.2.2.2.2.2.2.2 2 0 1 runBadDelay j sr h hp⟩

/-- Witness for C3 at a concrete webhook step run against an unreachable
target. -/
theorem webhook_failure_swallowed_witness :
    webhookExecute cfgHook [("k", Value.str "v")] (.transportError "Connection refused") =
      alSet [("k", Value.str "v")] "error" (Value.str "Connection refused") ∧
    (∃ out run', executeStep sdHook runHook.context (worldDown 0) = .ok out ∧
      executeLoop wfHook worldDown 2 0 1 runHook = executeLoop wfHook worldDown 1 1 3 run' ∧
      (∃ sr, alGet run'.steps "h1" = some sr ∧ sr.status = StepStatus.completed ∧
        sr.output = some out) ∧
      run'.current_step_id = sdHook.next_step_id) :=
  ⟨(webhook_failure_swallowed cfgHook [("k", Value.str "v")]).1 "Connection refused",
   (webhook_failure_swallowed cfgHook runHook.context).2.2.2.2.2
     wfHook worldDown 1 0 1 runHook "h1" sdHook rfl rfl rfl rfl rfl⟩

/-- Witness for C4 at a concrete well-formed chain. -/
theorem workflow_validation_spec_witness :
    (mkWorkflowDefinition "w" "n" "a" stepsGood).isOk = true :=
  (workflow_validation_spec "w" "n" "a" stepsGood).1.mpr
    ⟨by decide, by decide, by
      intro s hs nx hnx
      simp only [stepsGood, List.mem_cons, List.not_mem_nil, or_false] at hs
      rcases hs with h | h
      · subst h
        injection hnx with h2
        subst h2
        decide
      · subst h
        cases hnx⟩

/-- Witness for C5 at the concrete webhook run `runHook`. -/
theorem step_output_records_returned_context_witness :
    ∃ run', executeLoop wfHook worldText200 2 0 1 runHook =
        executeLoop wfHook worldText200 1 1 3 run' ∧
      (∃ sr, alGet run'.steps "h1" = some sr ∧ sr.status = StepStatus.completed ∧
        sr.output = some [("k", Value.str "v"),
          ("response", mkResponseValue 200 [] (Value.str "ok"))]) ∧
      run'.context = ctxUpdate runHook.context
        [("k", Value.str "v"), ("response", mkResponseValue 200 [] (Value.str "ok"))] ∧
      run'.current_step_id = sdHook.next_step_id ∧
      (∀ cfg w key, key ≠ "error" → key ≠ "response" →
        alGet (webhookExecute cfg runHook.context w) key = alGet runHook.context key) :=
  step_output_records_returned_context wfHook worldText200 1 0 1 runHook "h1" sdHook
    [("k", Value.str "v"), ("response", mkResponseValue 200 [] (Value.str "ok"))]
    rfl rfl rfl rfl

/-- Witness for C6 at a concrete one-placeholder template whose name is
present. -/
theorem render_interpolation_spec_witness :
    renderStr "\x7ba\x7d" [("a", Value.str "x")] =
      substTolerant "\x7ba\x7d" [("a", Value.str "x")] :=
  (render_interpolation_spec "\x7ba\x7d" [("a", Value.str "x")]).1 (by decide)

/-- Witness for C7 at a concrete empty store and a stored definition. -/
theorem storage_roundtrip_spec_witness :
    (storeCreate "WorkflowDefinition" (fun w : WorkflowDefinition => w.id) [] wfChain =
        ([("w1", wfChain)], .ok wfChain) ∧
      storeGet "WorkflowDefinition" [("w1", wfChain)] "w1" = .ok wfChain) ∧
    (storeGet "WorkflowDefinition" ([] : Store WorkflowDefinition) "zzz" =
        .error (.notFound ("WorkflowDefinition" ++ " with ID " ++ "zzz" ++ " not found.")) ∧
      (∀ e2 : WorkflowDefinition, e2.id = "zzz" → "zzz" ≠ "" →
        storeUpdate "WorkflowDefinition" (fun w : WorkflowDefinition => w.id) [] e2 =
          ([], .error (.notFound ("WorkflowDefinition" ++ " with ID " ++ "zzz" ++ " not found."))))) :=
  ⟨(storage_roundtrip_spec "WorkflowDefinition" (fun w : WorkflowDefinition => w.id)
      [] wfChain "zzz").1 (by decide) rfl,
   (storage_roundtrip_spec "WorkflowDefinition" (fun w : WorkflowDefinition => w.id)
      [] wfChain "zzz").2.2 rfl⟩

/-- Witness for C8 at concrete config maps providing `seconds` as an integer
and as an integer-spelling string. -/
theorem delay_connector_spec_witness :
    delayExecute cfgDelay3 [("k", Value.str "v")] = [("k", Value.str "v")] ∧
    (delayConfigParse [("seconds", Value.int 3)]).isOk = true ∧
    (delayConfigParse [("seconds", Value.str "5")]).isOk = true :=
  ⟨(delay_connector_spec cfgDelay3 [("k", Value.str "v")] [("seconds", Value.int 3)]).1,
   (delay_connector_spec cfgDelay3 [("k", Value.str "v")] [("seconds", Value.int 3)]).2.1.mpr
     ⟨by decide, by intro v hv; simp [alGet] at hv,
      ⟨Value.int 3, 3, rfl, rfl, by decide⟩⟩,
   (delay_connector_spec cfgDelay3 [("k", Value.str "v")] [("seconds", Value.str "5")]).2.1.mpr
     ⟨by decide, by intro v hv; simp [alGet] at hv,
      ⟨Value.str "5", 5, rfl, by decide, by decide⟩⟩⟩

/-- Witness for C9 at an unknown step type and at a known type with a
rejected config. -/
theorem dispatch_and_lazy_config_validation_witness :
    executeStep sdEmail [] (HttpOutcome.transportError "x") =
      .error ("Unsupported step type: " ++ sdEmail.type) ∧
    executeStep sdBad [] (HttpOutcome.transportError "x") =
      .error "Input should be greater than 0: seconds" :=
  ⟨dispatch_and_lazy_config_validation.1 sdEmail [] (HttpOutcome.transportError "x") rfl,
   dispatch_and_lazy_config_validation.2.1 sdBad [] (HttpOutcome.transportError "x")
     (PyErr.validationErr "Input should be greater than 0: seconds") rfl rfl⟩

end WorkflowBuilder
